import Mathlib

/-!
Verification of the transaction-building and execution core of the
marinade-common-rs-cli repository.

The development shallowly embeds, in Lean, the Rust sources under
src/libs/marinade-client-rs/src/transactions/ (signature_builder.rs,
prepared_transaction.rs, transaction_builder.rs, transaction_executors.rs)
and src/libs/transaction-utils/src/anchor_executors.rs, together with the
parts of the external solana-sdk that those sources observe: legacy message
compilation (Transaction::new_with_payer), bincode wire size of a legacy
transaction, and Transaction::try_sign.

Modelling conventions:
- Pubkey is modelled as a natural number; the solana BTreeMap ordering on
  32-byte keys is modelled by the linear order on the naturals (only the
  relative order of keys is ever observable: it decides the order of
  account keys inside a compiled message, never sizes or membership).
- A Keypair is identified with its public key: the SignatureBuilder map
  from pubkey to keypair becomes a list of registered pubkeys, and a
  resolved signing capability is represented by the pubkey it signs for.
- An ed25519 signature over a message is modelled as the pair
  (signing pubkey, message value); signing is deterministic in the source
  (Keypair::try_sign_message), so this pair is a faithful abstraction.
- Byte payloads are lists of naturals (only lengths enter wire sizes).
-/

namespace Marinade

/-- Account identifier (solana Pubkey), modelled as a natural number. -/
abbrev Pubkey := Nat

/-- Blockhash (solana Hash), the freshness token; Hash::default() is 0. -/
abbrev Hash := Nat

/-- AccountMeta of solana_sdk: one account reference inside an instruction,
with its signer and writable flags. -/
structure AccountMeta where
  pubkey : Pubkey
  is_signer : Bool
  is_writable : Bool
deriving DecidableEq, Repr

/-- Instruction of solana_sdk: target program, ordered account references and
an opaque payload. -/
structure Instruction where
  program_id : Pubkey
  accounts : List AccountMeta
  data : List Nat
deriving DecidableEq, Repr

/-! ### Legacy message compilation (solana_sdk message/compiled_keys.rs)

CompiledKeys::compile walks every instruction, records each mentioned key in
a BTreeMap with is_signer / is_writable flags accumulated by logical or, adds
the payer as a writable signer, and then emits: payer, the remaining writable
signers in key order, readonly signers in key order, writable non-signers in
key order, readonly non-signers (which include invoked program ids) in key
order. The BTreeMap is modelled by an insertion sort producing the sorted,
duplicate-free list of mentioned keys. -/

/-- Insert a key into a sorted duplicate-free list, keeping it sorted. -/
def insertKey (k : Pubkey) : List Pubkey → List Pubkey
  | [] => [k]
  | x :: xs =>
    if k < x then k :: x :: xs
    else if k = x then x :: xs
    else x :: insertKey k xs

/-- Sorted, duplicate-free list of the given keys (the BTreeMap key set). -/
def sortedDedup (l : List Pubkey) : List Pubkey :=
  l.foldr insertKey []

/-- Every key mentioned by a list of instructions: program ids and account
references, in source order (the order is irrelevant after sortedDedup). -/
def mentionedKeys (ins : List Instruction) : List Pubkey :=
  ins.flatMap fun i => i.program_id :: i.accounts.map (·.pubkey)

/-- Accumulated is_signer flag of a key over all its account references. -/
def keyIsSigner (ins : List Instruction) (k : Pubkey) : Bool :=
  ins.any fun i => i.accounts.any fun a => a.pubkey = k && a.is_signer

/-- Accumulated is_writable flag of a key over all its account references. -/
def keyIsWritable (ins : List Instruction) (k : Pubkey) : Bool :=
  ins.any fun i => i.accounts.any fun a => a.pubkey = k && a.is_writable

/-- Writable signer keys of the compiled message: the fee payer first
(its map entry is removed and it is prepended unconditionally), then the
remaining writable signers in key order. -/
def writableSignerKeys (payer : Pubkey) (ins : List Instruction) : List Pubkey :=
  payer :: (sortedDedup (mentionedKeys ins)).filter
    (fun k => decide (k ≠ payer) && keyIsSigner ins k && keyIsWritable ins k)

/-- Readonly signer keys of the compiled message, in key order. -/
def readonlySignerKeys (payer : Pubkey) (ins : List Instruction) : List Pubkey :=
  (sortedDedup (mentionedKeys ins)).filter
    (fun k => decide (k ≠ payer) && keyIsSigner ins k && !keyIsWritable ins k)

/-- Writable non-signer keys of the compiled message, in key order. -/
def writableNonSignerKeys (payer : Pubkey) (ins : List Instruction) : List Pubkey :=
  (sortedDedup (mentionedKeys ins)).filter
    (fun k => decide (k ≠ payer) && !keyIsSigner ins k && keyIsWritable ins k)

/-- Readonly non-signer keys of the compiled message, in key order. -/
def readonlyNonSignerKeys (payer : Pubkey) (ins : List Instruction) : List Pubkey :=
  (sortedDedup (mentionedKeys ins)).filter
    (fun k => decide (k ≠ payer) && !keyIsSigner ins k && !keyIsWritable ins k)

/-- Account key list of the compiled legacy message. -/
def accountKeys (payer : Pubkey) (ins : List Instruction) : List Pubkey :=
  writableSignerKeys payer ins ++ readonlySignerKeys payer ins
    ++ writableNonSignerKeys payer ins ++ readonlyNonSignerKeys payer ins

/-- MessageHeader.num_required_signatures of the compiled message. -/
def numRequiredSignatures (payer : Pubkey) (ins : List Instruction) : Nat :=
  (writableSignerKeys payer ins).length + (readonlySignerKeys payer ins).length

/-- Compiled legacy message: header counts, account keys, the recent
blockhash, and the instructions (kept in source form; the compiled form is in
bijection with it and only lengths enter the wire size). -/
structure Message where
  numRequiredSignatures : Nat
  numReadonlySignedAccounts : Nat
  numReadonlyUnsignedAccounts : Nat
  account_keys : List Pubkey
  recent_blockhash : Hash
  instructions : List Instruction
deriving DecidableEq, Repr

/-- Signature: the signing pubkey paired with the signed message value
(deterministic ed25519 signing over the serialized message). -/
abbrev Sig := Pubkey × Message

/-- Transaction of solana_sdk: signature slots (none models the all-zero
default signature) and the message. -/
structure Transaction where
  signatures : List (Option Sig)
  message : Message
deriving DecidableEq, Repr

/-- Message::new_with_payer composed over the compiled keys. -/
def Message.newWithPayer (ins : List Instruction) (payer : Pubkey) : Message where
  numRequiredSignatures := Marinade.numRequiredSignatures payer ins
  numReadonlySignedAccounts := (readonlySignerKeys payer ins).length
  numReadonlyUnsignedAccounts := (readonlyNonSignerKeys payer ins).length
  account_keys := accountKeys payer ins
  recent_blockhash := 0
  instructions := ins

/-- Transaction::new_with_payer: unsigned transaction, one default signature
slot per required signature. -/
def Transaction.newWithPayer (ins : List Instruction) (payer : Pubkey) : Transaction where
  signatures := List.replicate (Marinade.numRequiredSignatures payer ins) none
  message := Message.newWithPayer ins payer

/-! ### Bincode wire size of a legacy transaction

bincode::serialize(&transaction) produces: short_vec length of the signature
vector followed by 64 bytes per signature; the 3 header bytes; short_vec
length of account_keys followed by 32 bytes per key; the 32-byte recent
blockhash; short_vec length of the instruction vector; and per compiled
instruction one program-id index byte, short_vec length plus one byte per
account index, and short_vec length plus the payload bytes. -/

/-- Byte length of a short_vec (ShortU16) length prefix. -/
def shortvecLen (n : Nat) : Nat :=
  if n < 128 then 1 else if n < 16384 then 2 else 3

/-- Wire size of one compiled instruction. -/
def compiledInstructionSize (i : Instruction) : Nat :=
  1 + shortvecLen i.accounts.length + i.accounts.length
    + shortvecLen i.data.length + i.data.length

/-- Wire size of a serialized transaction (bincode::serialize(..).len()). -/
def Transaction.serializedSize (t : Transaction) : Nat :=
  shortvecLen t.signatures.length + 64 * t.signatures.length
    + 3 + shortvecLen t.message.account_keys.length + 32 * t.message.account_keys.length
    + 32 + shortvecLen t.message.instructions.length
    + (t.message.instructions.map compiledInstructionSize).sum

/-- Wire size of the envelope built from the given instructions and fee
payer, exactly as transaction_builder.rs computes it:
bincode::serialize(&Transaction::new_with_payer(ins, Some(payer))).len(). -/
def txWireSize (payer : Pubkey) (ins : List Instruction) : Nat :=
  (Transaction.newWithPayer ins payer).serializedSize

/-! ### SignatureBuilder (signature_builder.rs)

The HashMap from Pubkey to Arc of Keypair becomes the list of registered
pubkeys (a keypair is identified with its pubkey, see the header comment). -/

/-- SignatureBuilder: registered signing capabilities plus the strict-mode
flag. -/
structure SignatureBuilder where
  signers : List Pubkey
  is_check_signers : Bool
deriving DecidableEq, Repr

/-- SignatureBuilder::new. -/
def SignatureBuilder.new : SignatureBuilder := ⟨[], true⟩

/-- SignatureBuilder::new_without_check. -/
def SignatureBuilder.new_without_check : SignatureBuilder := ⟨[], false⟩

/-- SignatureBuilder::add_signer: HashMap::insert keyed by the keypair's own
pubkey (re-registering an already present key replaces the stored capability,
which is the identity here). -/
def SignatureBuilder.add_signer (sb : SignatureBuilder) (k : Pubkey) : SignatureBuilder :=
  if sb.signers.contains k then sb else { sb with signers := sb.signers ++ [k] }

/-- SignatureBuilder::contains_key. -/
def SignatureBuilder.contains_key (sb : SignatureBuilder) (k : Pubkey) : Bool :=
  sb.signers.contains k

/-- SignatureBuilder::get_signer. -/
def SignatureBuilder.get_signer (sb : SignatureBuilder) (k : Pubkey) : Option Pubkey :=
  if sb.signers.contains k then some k else none

/-- SignatureBuilder::signers_for_transaction: resolve every key of the
signed region account_keys[0..num_required_signatures] in slot order, failing
with the first unresolvable key. -/
def SignatureBuilder.signers_for_transaction (sb : SignatureBuilder) (t : Transaction) :
    Except Pubkey (List Pubkey) :=
  (t.message.account_keys.take t.message.numRequiredSignatures).mapM
    fun k => if sb.signers.contains k then Except.ok k else Except.error k

/-! ### PreparedTransaction (prepared_transaction.rs) and Transaction::try_sign -/

/-- Deterministic signature of a capability over a message. -/
def sigOf (k : Pubkey) (m : Message) : Sig := (k, m)

/-- SignerError of solana_sdk (the constructors this code can produce). -/
inductive SignerError where
  | keypairPubkeyMismatch
  | notEnoughSigners
deriving DecidableEq, Repr

/-- Iterator::position of a key inside a key list (used by
Transaction::get_signing_keypair_positions). -/
def findPos (k : Pubkey) : List Pubkey → Option Nat
  | [] => none
  | x :: xs => if x = k then some 0 else (findPos k xs).map (· + 1)

/-- Transaction::try_sign: look up each keypair's slot in the signed key
region, reset the blockhash and wipe every signature when the blockhash
changes, write one fresh signature per keypair over the updated message, then
demand that every slot be signed. -/
def Transaction.trySign (t : Transaction) (keypairs : List Pubkey) (recent_blockhash : Hash) :
    Except SignerError Transaction :=
  let signedKeys := t.message.account_keys.take t.message.numRequiredSignatures
  match keypairs.mapM (fun k => findPos k signedKeys) with
  | none => .error .keypairPubkeyMismatch
  | some positions =>
    let cleared : Message × List (Option Sig) :=
      if recent_blockhash ≠ t.message.recent_blockhash then
        ({ t.message with recent_blockhash := recent_blockhash },
          List.replicate t.message.numRequiredSignatures none)
      else (t.message, t.signatures)
    let msg := cleared.1
    let sigs := (keypairs.zip positions).foldl
      (fun acc kp => acc.set kp.2 (some (sigOf kp.1 msg))) cleared.2
    let t' : Transaction := { signatures := sigs, message := msg }
    if t'.signatures.all Option.isSome then .ok t' else .error .notEnoughSigners

/-- PreparedTransaction: a built transaction plus the resolved signing
capabilities for every required slot, in slot order. -/
structure PreparedTransaction where
  transaction : Transaction
  signers : List Pubkey
deriving DecidableEq, Repr

/-- PreparedTransaction::new. -/
def PreparedTransaction.new (t : Transaction) (sb : SignatureBuilder) :
    Except Pubkey PreparedTransaction :=
  match sb.signers_for_transaction t with
  | .error k => .error k
  | .ok s => .ok ⟨t, s⟩

/-- PreparedTransaction::new_no_signers. -/
def PreparedTransaction.new_no_signers (t : Transaction) : PreparedTransaction :=
  ⟨t, []⟩

/-- PreparedTransaction::sign: Transaction::try_sign with the resolved
capabilities and the new freshness token. -/
def PreparedTransaction.sign (pt : PreparedTransaction) (recent_blockhash : Hash) :
    Except SignerError PreparedTransaction :=
  match pt.transaction.trySign pt.signers recent_blockhash with
  | .error e => .error e
  | .ok t' => .ok { pt with transaction := t' }

/-! ### TransactionBuilder (transactions/transaction_builder.rs)

The OnceCell holding the current pack is always populated along the
operations modelled here (new() fills it and finish_instruction_pack refills
it after taking it), so the current pack is embedded as a plain list. -/

/-- TransactionBuildError of transaction_builder.rs. -/
inductive TransactionBuildError where
  | UnknownSigner (k : Pubkey)
  | TooBigTransaction
deriving DecidableEq, Repr

/-- TransactionBuilder state. -/
structure TransactionBuilder where
  fee_payer : Pubkey
  signature_builder : SignatureBuilder
  instruction_packs : List (List Instruction)
  current_instruction_pack : List Instruction
  max_transaction_size : Nat
  is_check_signers : Bool
deriving DecidableEq, Repr

/-- TransactionBuilder::new: registers the fee payer and opens an empty
current pack. -/
def TransactionBuilder.new (fee_payer : Pubkey) (max_transaction_size : Nat) :
    TransactionBuilder where
  fee_payer := fee_payer
  signature_builder := SignatureBuilder.new.add_signer fee_payer
  instruction_packs := []
  current_instruction_pack := []
  max_transaction_size := max_transaction_size
  is_check_signers := true

/-- TransactionBuilder::with_no_signers_check: disables strict mode and
replaces the signature builder with an empty non-checking one. -/
def TransactionBuilder.with_no_signers_check (b : TransactionBuilder) : TransactionBuilder :=
  { b with is_check_signers := false, signature_builder := SignatureBuilder.new_without_check }

/-- TransactionBuilder::check_signers: in strict mode, fail with
UnknownSigner at the first signer-flagged account whose key is not registered. -/
def TransactionBuilder.check_signers (b : TransactionBuilder) (i : Instruction) :
    Except TransactionBuildError Unit :=
  if !b.is_check_signers then .ok ()
  else
    match i.accounts.find? (fun a => a.is_signer && !b.signature_builder.contains_key a.pubkey) with
    | some a => .error (.UnknownSigner a.pubkey)
    | none => .ok ()

/-- TransactionBuilder::finish_instruction_pack: commit the current pack to
the back of the committed queue and open a fresh one. -/
def TransactionBuilder.finish_instruction_pack (b : TransactionBuilder) : TransactionBuilder :=
  { b with instruction_packs := b.instruction_packs ++ [b.current_instruction_pack],
           current_instruction_pack := [] }

/-- TransactionBuilder::is_empty. -/
def TransactionBuilder.isEmptyB (b : TransactionBuilder) : Bool :=
  b.current_instruction_pack.isEmpty && b.instruction_packs.isEmpty

/-- TransactionBuilder::add_instruction, returned together with the builder
state after the call. The source pushes the instruction, measures the
candidate envelope, and pops the instruction again when a nonzero maximum is
exceeded; the pop is kept explicit (dropLast of the pushed list) so that the
no-partial-mutation property is a theorem rather than a modelling assumption. -/
def TransactionBuilder.add_instruction (b : TransactionBuilder) (i : Instruction) :
    Except TransactionBuildError Unit × TransactionBuilder :=
  match b.check_signers i with
  | .error e => (.error e, b)
  | .ok _ =>
    let pushed := { b with current_instruction_pack := b.current_instruction_pack ++ [i] }
    let tx_size_candidate := txWireSize pushed.fee_payer pushed.current_instruction_pack
    if 0 < pushed.max_transaction_size ∧ pushed.max_transaction_size < tx_size_candidate then
      (.error .TooBigTransaction,
        { pushed with current_instruction_pack := pushed.current_instruction_pack.dropLast })
    else (.ok (), pushed)

/-- Instructions held by the builder, committed queue first, then the current
pack (TransactionBuilder::instructions). -/
def TransactionBuilder.instructions (b : TransactionBuilder) : List Instruction :=
  b.instruction_packs.flatten ++ b.current_instruction_pack

/-- Shared head of build_next and build_next_combined: commit the current
pack when it is non-empty. -/
def commitIfPending (b : TransactionBuilder) : TransactionBuilder :=
  if !b.current_instruction_pack.isEmpty then b.finish_instruction_pack else b

/-- Body of build_next after the pending commit: pop the oldest committed
pack and turn it into a prepared envelope. The panic of the expect on
PreparedTransaction::new is the error case of the Except. -/
def buildNextFrom (b1 : TransactionBuilder) :
    Except Pubkey (Option PreparedTransaction × TransactionBuilder) :=
  if b1.isEmptyB then .ok (none, b1)
  else
    match b1.instruction_packs with
    | [] => .ok (none, b1)
    | pack :: rest =>
      let b2 := { b1 with instruction_packs := rest }
      let tx := Transaction.newWithPayer pack b1.fee_payer
      if b1.is_check_signers then
        match PreparedTransaction.new tx b1.signature_builder with
        | .error k => .error k
        | .ok pt => .ok (some pt, b2)
      else .ok (some (PreparedTransaction.new_no_signers tx), b2)

/-- TransactionBuilder::build_next: commit a non-empty current pack, then pop
the oldest committed pack and turn it into a prepared envelope. -/
def TransactionBuilder.build_next (b : TransactionBuilder) :
    Except Pubkey (Option PreparedTransaction × TransactionBuilder) :=
  buildNextFrom (commitIfPending b)

/-- Greedy merge loop of build_next_combined: starting from the accumulated
instructions, keep consuming the next committed pack while the merged
envelope still fits the maximum, and stop, without error, at the first pack
that does not fit, leaving it in the queue. -/
def mergeLoop (payer : Pubkey) (maxSize : Nat) :
    List Instruction → List (List Instruction) → List Instruction × List (List Instruction)
  | acc, [] => (acc, [])
  | acc, p :: ps =>
    if txWireSize payer (acc ++ p) ≤ maxSize then mergeLoop payer maxSize (acc ++ p) ps
    else (acc, p :: ps)

/-- Body of build_next_combined after the pending commit: with an unbounded
maximum drain the whole queue into one envelope, otherwise seed with the
oldest pack and greedily merge the following packs while the merged envelope
fits. -/
def buildNextCombinedFrom (b1 : TransactionBuilder) :
    Except Pubkey (Option PreparedTransaction × TransactionBuilder) :=
  match b1.instruction_packs with
  | [] => .ok (none, b1)
  | first :: rest =>
    let merged : List Instruction × List (List Instruction) :=
      if b1.max_transaction_size = 0 then ((first :: rest).flatten, [])
      else mergeLoop b1.fee_payer b1.max_transaction_size first rest
    let b2 := { b1 with instruction_packs := merged.2 }
    let tx := Transaction.newWithPayer merged.1 b1.fee_payer
    if b1.is_check_signers then
      match PreparedTransaction.new tx b1.signature_builder with
      | .error k => .error k
      | .ok pt => .ok (some pt, b2)
    else .ok (some (PreparedTransaction.new_no_signers tx), b2)

/-- TransactionBuilder::build_next_combined: commit a non-empty current pack,
then greedily merge committed packs into one envelope. -/
def TransactionBuilder.build_next_combined (b : TransactionBuilder) :
    Except Pubkey (Option PreparedTransaction × TransactionBuilder) :=
  buildNextCombinedFrom (commitIfPending b)

/-- Repeated build_next_combined with explicit fuel; a fuel of zero stops the
drain early (drainCombined always supplies enough fuel to reach the
none-returning call). -/
def drainCombinedAux : Nat → TransactionBuilder →
    Except Pubkey (List PreparedTransaction × TransactionBuilder)
  | 0, b => .ok ([], b)
  | fuel + 1, b =>
    match b.build_next_combined with
    | .error k => .error k
    | .ok (none, b') => .ok ([], b')
    | .ok (some pt, b') =>
      match drainCombinedAux fuel b' with
      | .error k => .error k
      | .ok (pts, b'') => .ok (pt :: pts, b'')

/-- The builder's combined sequence, drained until build_next_combined
returns none (the supplied fuel is proven sufficient below). -/
def drainCombined (b : TransactionBuilder) :
    Except Pubkey (List PreparedTransaction × TransactionBuilder) :=
  drainCombinedAux (b.instruction_packs.length + 2) b

/-! ### Operation sequences on the builder (for the packing invariant) -/

/-- One caller-visible builder operation: an add_instruction call (whose
error, if any, the caller observes and continues past) or a
finish_instruction_pack call. -/
inductive BuilderOp where
  | add (i : Instruction)
  | commit
deriving DecidableEq, Repr

/-- State reached after one operation. -/
def applyOp (b : TransactionBuilder) : BuilderOp → TransactionBuilder
  | .add i => (b.add_instruction i).2
  | .commit => b.finish_instruction_pack

/-- State reached after a sequence of operations. -/
def applyOps (b : TransactionBuilder) (ops : List BuilderOp) : TransactionBuilder :=
  ops.foldl applyOp b

/-! ### Client error shapes and the retry classification
(transactions/transaction_executors.rs) -/

/-- TransactionError of solana_sdk (BlockhashNotFound is the retried class;
all other variants are collapsed into representative constructors, which is
faithful because the code only ever compares against BlockhashNotFound). -/
inductive TransactionError where
  | BlockhashNotFound
  | InstructionError (n : Nat)
  | otherVariant (code : Nat)
deriving DecidableEq, Repr

/-- RpcSimulateTransactionResult: on-chain error and diagnostic log lines. -/
structure SimValue where
  err : Option TransactionError
  logs : Option (List String)
deriving DecidableEq, Repr

/-- ClientErrorKind of solana_client, restricted to the shapes the retry
classification distinguishes: a preflight simulation failure carrying an
optional TransactionError, a ForUser message, a bare TransactionError, and
every remaining kind collapsed into one constructor (the code maps all of
them to no retryable error). -/
inductive ClientErrorKind where
  | preflightFailure (value : SimValue)
  | forUser (message : String)
  | transactionErr (e : TransactionError)
  | otherKind (code : Nat)
deriving DecidableEq, Repr

/-- Lowercased characters of a string (str::to_lowercase). -/
def lowerChars (s : String) : List Char :=
  s.data.map Char.toLower

/-- Pattern occurs at the head of the character list. -/
def listStartsWith : List Char → List Char → Bool
  | [], _ => true
  | _ :: _, [] => false
  | p :: ps, c :: cs => p = c && listStartsWith ps cs

/-- Pattern occurs somewhere in the character list (str::contains). -/
def listHasSub (pat : List Char) : List Char → Bool
  | [] => listStartsWith pat []
  | c :: cs => listStartsWith pat (c :: cs) || listHasSub pat cs

/-- The ForUser text test of the retry loop:
message.to_lowercase().contains("unable to confirm transaction"). -/
def saysUnableToConfirm (message : String) : Bool :=
  listHasSub "unable to confirm transaction".data (lowerChars message)

/-- The to_check_err match of
execute_prepared_transaction_retry_blockhash_internal: extract the
TransactionError to compare against BlockhashNotFound, treating a matching
ForUser message as BlockhashNotFound. -/
def toCheckErr : ClientErrorKind → Option TransactionError
  | .preflightFailure v => v.err
  | .forUser message =>
    if saysUnableToConfirm message then some .BlockhashNotFound else none
  | .transactionErr e => some e
  | .otherKind _ => none

/-- An attempt error is retried exactly when its extracted TransactionError
is BlockhashNotFound. -/
def isRetryableErr (e : ClientErrorKind) : Bool :=
  match toCheckErr e with
  | some .BlockhashNotFound => true
  | _ => false

/-- The initial last_error of the retry loop
(RpcRequestError("send_transaction: unknown retry failure")). -/
def initialRetryError : ClientErrorKind :=
  .otherKind 0

/-- One submission attempt of execute_prepared_transaction_internal: fetch a
fresh blockhash, re-sign, submit and await confirmation. The whole attempt is
abstracted as the remote node's answer to the n-th attempt, so the number of
attempts equals the number of blockhash fetches. -/
abbrev AttemptOracle := Nat → Except ClientErrorKind Nat

/-- Loop body of execute_prepared_transaction_retry_blockhash_internal.
retry_count is a u16 in the source and is incremented modulo 2^16 (release
overflow semantics); the loop condition is retry_count <= retries. The fuel
argument bounds the number of executed iterations: the first component is
none when the loop is still running after that many iterations, and the
second component counts the attempts made so far. -/
def retryAuxW (attempts : AttemptOracle) (retries : Nat) :
    Nat → Nat → Nat → ClientErrorKind → Option (Except ClientErrorKind Nat) × Nat
  | 0, _, i, _ => (none, i)
  | fuel + 1, retry_count, i, last_error =>
    if retry_count ≤ retries then
      match attempts i with
      | .ok signature => (some (.ok signature), i + 1)
      | .error e =>
        if isRetryableErr e then retryAuxW attempts retries fuel ((retry_count + 1) % 65536) (i + 1) e
        else (some (.error e), i + 1)
    else (some (.error last_error), i)

/-- execute_prepared_transaction_retry_blockhash_internal over an attempt
oracle: result (none while still looping after the given fuel) and number of
attempts (= blockhash fetches) made. -/
def retryBlockhashInternal (attempts : AttemptOracle) (retries fuel : Nat) :
    Option (Except ClientErrorKind Nat) × Nat :=
  retryAuxW attempts retries fuel 0 0 initialRetryError

/-! ### Execution pipelines

Observable remote-node and stdout effects are recorded as an event trace:
printedBlock is one base64 text block written by print_base64 (one per
instruction, carrying that instruction), simulated is one
simulate_transaction_with_config call, submitted is one
send_and_confirm_transaction call (one per attempt of the retry loop), and
warned is the only-first-simulated warning. -/

/-- Observable effect of the execution pipelines. -/
inductive ExecEvent where
  | printedBlock (i : Instruction)
  | simulated (ins : List Instruction)
  | submitted (ins : List Instruction)
  | warned
deriving DecidableEq, Repr

/-- Outcome of one simulation call against the remote node. -/
abbrev SimOutcome := Except ClientErrorKind SimValue

/-- log_simulation returns Ok exactly when the transport succeeded and the
simulation reported no on-chain error. -/
def logSimulationOk : SimOutcome → Bool
  | .ok v => v.err.isNone
  | .error _ => false

/-- Execute branch of execute_transaction_builder: drain the combined
sequence one envelope at a time; each envelope runs the blockhash retry loop
(one submitted event per attempt) and a failed envelope aborts the rest via
log_execution. The outer Except is a drain panic, the Option is none while
the retry loop of some envelope is still running within its fuel. -/
def executeLoopMarinade (sendOracle : Nat → AttemptOracle) (retries retryFuel : Nat) :
    Nat → Nat → TransactionBuilder → Except Pubkey (Option (List ExecEvent × Bool))
  | 0, _, _ => .ok (some ([], true))
  | loopFuel + 1, j, b =>
    match b.build_next_combined with
    | .error k => .error k
    | .ok (none, _) => .ok (some ([], true))
    | .ok (some pt, b') =>
      let ins := pt.transaction.message.instructions
      match retryBlockhashInternal (sendOracle j) retries retryFuel with
      | (none, _) => .ok none
      | (some res, n) =>
        let evs := (List.range n).map fun _ => ExecEvent.submitted ins
        match res with
        | .ok _ =>
          match executeLoopMarinade sendOracle retries retryFuel loopFuel (j + 1) b' with
          | .error k => .error k
          | .ok none => .ok none
          | .ok (some (evs', done)) => .ok (some (evs ++ evs', done))
        | .error _ => .ok (some (evs, false))

/-- execute_transaction_builder (transactions/transaction_executors.rs).
When the print flag is set, print_base64 first emits one block per
instruction held by the builder, committed packs first then the current
pack, in original order. With simulate set, only the first combined envelope
is simulated (draining continues purely to count the envelopes, and the
warning is emitted only when the first simulation passed log_simulation);
otherwise every combined envelope is submitted through the blockhash retry
loop, aborting at the first failed envelope. -/
def executeTransactionBuilder (b : TransactionBuilder) (simulate pr : Bool)
    (retries retryFuel : Nat)
    (simOracle : List Instruction → SimOutcome)
    (sendOracle : Nat → AttemptOracle) :
    Except Pubkey (Option (List ExecEvent × Bool)) :=
  let printEvents := if pr then b.instructions.map ExecEvent.printedBlock else []
  if simulate then
    match b.build_next_combined with
    | .error k => .error k
    | .ok (none, _) => .ok (some (printEvents, true))
    | .ok (some pt0, b') =>
      let ins0 := pt0.transaction.message.instructions
      let evs := printEvents ++ [ExecEvent.simulated ins0]
      if logSimulationOk (simOracle ins0) then
        match drainCombined b' with
        | .error k => .error k
        | .ok (pts, _) =>
          if pts.isEmpty then .ok (some (evs, true))
          else .ok (some (evs ++ [ExecEvent.warned], true))
      else .ok (some (evs, false))
  else
    match executeLoopMarinade sendOracle retries retryFuel (b.instruction_packs.length + 2) 0 b with
    | .error k => .error k
    | .ok none => .ok none
    | .ok (some (evs, done)) => .ok (some (printEvents ++ evs, done))

/-- Simulate branch of transaction-utils execute_with_config: with print_only
set each builder is printed and skipped (the counter never moves), otherwise
each builder is simulated in turn, aborting at the first failed
log_simulation; the third component counts simulated builders for the
warning. -/
def simulateLoopTU (simOracle : Nat → SimOutcome) (printOnly : Bool) :
    List (List Instruction) → Nat → List ExecEvent × Bool × Nat
  | [], _ => ([], true, 0)
  | ins :: rest, idx =>
    if printOnly then
      let r := simulateLoopTU simOracle printOnly rest (idx + 1)
      (ins.map ExecEvent.printedBlock ++ r.1, r.2.1, r.2.2)
    else
      if logSimulationOk (simOracle idx) then
        let r := simulateLoopTU simOracle printOnly rest (idx + 1)
        (ExecEvent.simulated ins :: r.1, r.2.1, r.2.2 + 1)
      else ([ExecEvent.simulated ins], false, 1)

/-- Non-simulate branch of transaction-utils execute_with_config: print-only
prints each builder, otherwise each builder is submitted once, aborting at
the first failure. -/
def execLoopTU (sendOracle : Nat → Except ClientErrorKind Nat) (printOnly : Bool) :
    List (List Instruction) → Nat → List ExecEvent × Bool
  | [], _ => ([], true)
  | ins :: rest, idx =>
    if printOnly then
      let r := execLoopTU sendOracle printOnly rest (idx + 1)
      (ins.map ExecEvent.printedBlock ++ r.1, r.2)
    else
      match sendOracle idx with
      | .ok _ =>
        let r := execLoopTU sendOracle printOnly rest (idx + 1)
        (ExecEvent.submitted ins :: r.1, r.2)
      | .error _ => ([ExecEvent.submitted ins], false)

/-- execute_with_config (transaction-utils/src/anchor_executors.rs), over the
instruction lists of the anchor request builders. -/
def executeWithConfig (builders : List (List Instruction)) (simulate printOnly : Bool)
    (simOracle : Nat → SimOutcome) (sendOracle : Nat → Except ClientErrorKind Nat) :
    List ExecEvent × Bool :=
  if simulate then
    match simulateLoopTU simOracle printOnly builders 0 with
    | (evs, false, _) => (evs, false)
    | (evs, true, count) => (if count > 1 then evs ++ [ExecEvent.warned] else evs, true)
  else execLoopTU sendOracle printOnly builders 0

/-! ## Theorems -/

/-- Instructions carried by an optional prepared envelope. -/
def optIns : Option PreparedTransaction → List Instruction
  | none => []
  | some pt => pt.transaction.message.instructions

lemma prepared_new_transaction {t : Transaction} {sb : SignatureBuilder}
    {pt : PreparedTransaction} (h : PreparedTransaction.new t sb = .ok pt) :
    pt.transaction = t := by
  unfold PreparedTransaction.new at h
  cases hs : sb.signers_for_transaction t with
  | error k => rw [hs] at h; cases h
  | ok s => rw [hs] at h; cases h; rfl

lemma finish_instructions (b : TransactionBuilder) :
    b.finish_instruction_pack.instructions = b.instructions := by
  simp [TransactionBuilder.finish_instruction_pack, TransactionBuilder.instructions]

lemma add_instruction_rollback (b : TransactionBuilder) (i : Instruction) :
    ({ b with current_instruction_pack := (b.current_instruction_pack ++ [i]).dropLast }
      : TransactionBuilder) = b := by
  rw [List.dropLast_concat]

/-- C3. In strict mode, an add_instruction call on an instruction holding a
signer-flagged account whose key is not registered in the signer registry
fails with UnknownSigner naming an unregistered signer-flagged key of that
instruction, and the builder state (committed packs and current pack alike)
is exactly the state before the call. -/
theorem c3_unknown_signer_rejects_unchanged (b : TransactionBuilder) (i : Instruction)
    (hstrict : b.is_check_signers = true)
    (hbad : ∃ a ∈ i.accounts, a.is_signer = true ∧
      b.signature_builder.contains_key a.pubkey = false) :
    ∃ k, b.add_instruction i = (.error (.UnknownSigner k), b) ∧
      ∃ a ∈ i.accounts, a.pubkey = k ∧ a.is_signer = true ∧
        b.signature_builder.contains_key k = false := by
  have hex : ∃ a ∈ i.accounts,
      (a.is_signer && !b.signature_builder.contains_key a.pubkey) = true := by
    obtain ⟨a, ha, hs, hc⟩ := hbad
    exact ⟨a, ha, by simp [hs, hc]⟩
  obtain ⟨a0, hfind⟩ := Option.isSome_iff_exists.mp
    ((List.find?_isSome).mpr hex)
  have hp := List.find?_some hfind
  have hmem := List.mem_of_find?_eq_some hfind
  have hsig : a0.is_signer = true := by
    cases h1 : a0.is_signer <;> simp [h1] at hp ⊢
  have hcon : b.signature_builder.contains_key a0.pubkey = false := by
    cases h2 : b.signature_builder.contains_key a0.pubkey <;>
      simp [h2] at hp ⊢
  refine ⟨a0.pubkey, ?_, a0, hmem, rfl, hsig, hcon⟩
  unfold TransactionBuilder.add_instruction TransactionBuilder.check_signers
  rw [hstrict]
  simp only [Bool.not_true, Bool.false_eq_true, if_false, hfind]

/-- C4. When a nonzero maximum is configured, the signer check passes and the
candidate envelope (current pack plus the new instruction, with the fee
payer) exceeds the maximum wire size, add_instruction fails with
TooBigTransaction and the builder state is exactly the state before the
call: the just-added instruction is popped again, and since an empty current
pack is how the builder represents the absence of an open pack, a pack whose
first instruction was rolled back is gone entirely. -/
theorem c4_too_big_rolls_back (b : TransactionBuilder) (i : Instruction)
    (hchk : b.check_signers i = .ok ())
    (hmax : 0 < b.max_transaction_size)
    (hbig : b.max_transaction_size <
      txWireSize b.fee_payer (b.current_instruction_pack ++ [i])) :
    b.add_instruction i = (.error .TooBigTransaction, b) := by
  unfold TransactionBuilder.add_instruction
  rw [hchk]
  simp only [if_pos (And.intro hmax hbig)]
  rw [add_instruction_rollback]

/-- Small instruction used by concrete witnesses: one unregistered signer. -/
def ixForeignSigner : Instruction := ⟨1, [⟨5, true, false⟩], []⟩

/-- Small instruction used by concrete witnesses: no accounts, ten payload
bytes, giving a 179-byte envelope together with a fee payer. -/
def ixSmall : Instruction := ⟨1, [], List.replicate 10 0⟩

/-- Witness for C3 at a concrete input. -/
theorem c3_witness :
    ∃ k, (TransactionBuilder.new 0 100).add_instruction ixForeignSigner
        = (.error (.UnknownSigner k), TransactionBuilder.new 0 100) ∧
      ∃ a ∈ ixForeignSigner.accounts, a.pubkey = k ∧ a.is_signer = true ∧
        (TransactionBuilder.new 0 100).signature_builder.contains_key k = false :=
  c3_unknown_signer_rejects_unchanged (TransactionBuilder.new 0 100) ixForeignSigner
    (by decide) (by decide)

/-- Witness for C4 at a concrete input: a 179-byte candidate against a
150-byte maximum. -/
theorem c4_witness :
    (TransactionBuilder.new 0 150).add_instruction ixSmall
      = (.error .TooBigTransaction, TransactionBuilder.new 0 150) :=
  c4_too_big_rolls_back (TransactionBuilder.new 0 150) ixSmall
    (by rfl) (by decide) (by decide)

/-! ### C1: the size invariant of committed packs -/

/-- Size invariant maintained by add_instruction and
finish_instruction_pack under a nonzero maximum: the current pack, when
non-empty, fits, and every non-empty committed pack fits. -/
def SizeInv (b : TransactionBuilder) : Prop :=
  (0 < b.max_transaction_size → b.current_instruction_pack ≠ [] →
    txWireSize b.fee_payer b.current_instruction_pack ≤ b.max_transaction_size)
  ∧ ∀ p ∈ b.instruction_packs, 0 < b.max_transaction_size → p ≠ [] →
      txWireSize b.fee_payer p ≤ b.max_transaction_size

lemma sizeInv_new (payer maxSize : Nat) : SizeInv (TransactionBuilder.new payer maxSize) := by
  constructor
  · intro _ h; cases h rfl
  · intro p hp; cases hp

/-- Either add_instruction leaves the state unchanged (signer failure or size
rollback), or it appends the instruction to the current pack and the
candidate fits any configured nonzero maximum. -/
lemma add_instruction_state (b : TransactionBuilder) (i : Instruction) :
    (b.add_instruction i).2 = b ∨
    ((b.add_instruction i).2
        = { b with current_instruction_pack := b.current_instruction_pack ++ [i] } ∧
      (0 < b.max_transaction_size →
        txWireSize b.fee_payer (b.current_instruction_pack ++ [i]) ≤ b.max_transaction_size)) := by
  unfold TransactionBuilder.add_instruction
  cases hc : b.check_signers i with
  | error e => left; rfl
  | ok u =>
    cases u
    by_cases hcond : 0 < b.max_transaction_size ∧
        b.max_transaction_size < txWireSize b.fee_payer (b.current_instruction_pack ++ [i])
    · left
      simp only [if_pos hcond]
      exact add_instruction_rollback b i
    · right
      refine ⟨by simp only [if_neg hcond], ?_⟩
      intro hpos
      rcases Nat.lt_or_ge b.max_transaction_size
        (txWireSize b.fee_payer (b.current_instruction_pack ++ [i])) with hlt | hge
      · exact absurd ⟨hpos, hlt⟩ hcond
      · exact hge

lemma applyOp_preserves_sizeInv (b : TransactionBuilder) (op : BuilderOp)
    (h : SizeInv b) : SizeInv (applyOp b op) := by
  cases op with
  | commit =>
    show SizeInv b.finish_instruction_pack
    unfold TransactionBuilder.finish_instruction_pack
    constructor
    · intro _ hne; cases hne rfl
    · intro p hp hpos hne
      simp only [List.mem_append, List.mem_singleton] at hp
      cases hp with
      | inl hold => exact h.2 p hold hpos hne
      | inr hcur => subst hcur; exact h.1 hpos hne
  | add i =>
    show SizeInv (b.add_instruction i).2
    rcases add_instruction_state b i with heq | ⟨heq, hfit⟩
    · rw [heq]; exact h
    · rw [heq]
      constructor
      · intro hpos _; exact hfit hpos
      · intro p hp hpos hne; exact h.2 p hp hpos hne

lemma applyOps_preserves_sizeInv (ops : List BuilderOp) :
    ∀ b : TransactionBuilder, SizeInv b → SizeInv (applyOps b ops) := by
  induction ops with
  | nil => intro b h; exact h
  | cons op rest ih =>
    intro b h
    exact ih (applyOp b op) (applyOp_preserves_sizeInv b op h)

lemma applyOp_fields (b : TransactionBuilder) (op : BuilderOp) :
    (applyOp b op).fee_payer = b.fee_payer ∧
    (applyOp b op).max_transaction_size = b.max_transaction_size := by
  cases op with
  | commit => exact ⟨rfl, rfl⟩
  | add i =>
    show ((b.add_instruction i).2.fee_payer = _) ∧ ((b.add_instruction i).2.max_transaction_size = _)
    rcases add_instruction_state b i with heq | ⟨heq, _⟩ <;> rw [heq] <;> exact ⟨rfl, rfl⟩

lemma applyOps_fields (ops : List BuilderOp) :
    ∀ b : TransactionBuilder, (applyOps b ops).fee_payer = b.fee_payer ∧
      (applyOps b ops).max_transaction_size = b.max_transaction_size := by
  induction ops with
  | nil => intro b; exact ⟨rfl, rfl⟩
  | cons op rest ih =>
    intro b
    have h1 := applyOp_fields b op
    have h2 := ih (applyOp b op)
    exact ⟨h2.1.trans h1.1, h2.2.trans h1.2⟩

/-- C1 counterexample. The claim as stated is false: a commit with no prior
add (builder created with maximum size 1) commits the empty pack, whose
serialized envelope with the fee payer is 134 bytes, exceeding the maximum. -/
theorem c1_counterexample :
    ¬ (∀ p ∈ (applyOps (TransactionBuilder.new 0 1) [BuilderOp.commit]).instruction_packs,
        txWireSize 0 p ≤ 1) := by
  decide

/-- C1 (amended: restricted to non-empty committed packs, which is what the
data model of the specification calls an Instruction Pack). For every
sequence of add/commit operations from a fresh builder with a nonzero
maximum, every non-empty committed pack serializes with the fee payer to at
most the configured maximum. -/
theorem c1_nonempty_committed_packs_fit (payer maxSize : Nat) (ops : List BuilderOp)
    (hmax : 0 < maxSize) :
    ∀ p ∈ (applyOps (TransactionBuilder.new payer maxSize) ops).instruction_packs,
      p ≠ [] → txWireSize payer p ≤ maxSize := by
  intro p hp hne
  have hinv := applyOps_preserves_sizeInv ops (TransactionBuilder.new payer maxSize)
    (sizeInv_new payer maxSize)
  have hf := applyOps_fields ops (TransactionBuilder.new payer maxSize)
  have := hinv.2 p hp (by rw [hf.2]; exact hmax) hne
  rwa [hf.1, hf.2] at this

/-- Witness for C1 at a concrete input: one successful 179-byte add under a
200-byte maximum, then a commit. -/
theorem c1_witness :
    txWireSize 0 [ixSmall] ≤ 200 :=
  c1_nonempty_committed_packs_fit 0 200 [BuilderOp.add ixSmall, BuilderOp.commit]
    (by decide) [ixSmall] (by decide) (by decide)

/-! ### C10 and C2: draining commits pending work and never loses or
reorders instructions -/

lemma commitIfPending_current (b : TransactionBuilder) :
    (commitIfPending b).current_instruction_pack = [] := by
  unfold commitIfPending
  by_cases h : b.current_instruction_pack.isEmpty
  · simp [h, List.isEmpty_iff.mp h]
  · simp [h, TransactionBuilder.finish_instruction_pack]

lemma commitIfPending_instructions (b : TransactionBuilder) :
    (commitIfPending b).instructions = b.instructions := by
  unfold commitIfPending
  by_cases h : b.current_instruction_pack.isEmpty
  · simp [h]
  · simp [h, finish_instructions]

lemma commitIfPending_fields (b : TransactionBuilder) :
    (commitIfPending b).fee_payer = b.fee_payer ∧
    (commitIfPending b).max_transaction_size = b.max_transaction_size ∧
    (commitIfPending b).signature_builder = b.signature_builder ∧
    (commitIfPending b).is_check_signers = b.is_check_signers := by
  unfold commitIfPending
  by_cases h : b.current_instruction_pack.isEmpty <;>
    simp [h, TransactionBuilder.finish_instruction_pack]

lemma buildNextFrom_spec {b1 : TransactionBuilder} {res : Option PreparedTransaction}
    {b' : TransactionBuilder} (hcur : b1.current_instruction_pack = [])
    (h : buildNextFrom b1 = .ok (res, b')) :
    optIns res ++ b'.instructions = b1.instructions ∧
      (res = none → b'.isEmptyB = true) := by
  unfold buildNextFrom at h
  by_cases hemp : b1.isEmptyB
  · rw [if_pos hemp] at h
    cases h
    exact ⟨rfl, fun _ => hemp⟩
  · rw [if_neg hemp] at h
    cases hps : b1.instruction_packs with
    | nil =>
      rw [hps] at h; cases h
      refine ⟨rfl, fun _ => ?_⟩
      unfold TransactionBuilder.isEmptyB
      simp [hcur, hps]
    | cons pack rest =>
      rw [hps] at h
      simp only at h
      cases hchk : b1.is_check_signers with
      | false =>
        rw [hchk] at h
        simp only [Bool.false_eq_true, if_false] at h
        cases h
        constructor
        · simp [optIns, PreparedTransaction.new_no_signers, Transaction.newWithPayer,
            Message.newWithPayer, TransactionBuilder.instructions, hps, hcur]
        · intro hn; cases hn
      | true =>
        rw [hchk] at h
        simp only [if_true] at h
        cases hnew : PreparedTransaction.new
            (Transaction.newWithPayer pack b1.fee_payer) b1.signature_builder with
        | error k => rw [hnew] at h; cases h
        | ok pt =>
          rw [hnew] at h
          cases h
          constructor
          · have ht := prepared_new_transaction hnew
            simp [optIns, ht, Transaction.newWithPayer, Message.newWithPayer,
              TransactionBuilder.instructions, hps, hcur]
          · intro hn; cases hn

lemma mergeLoop_flatten (payer maxSize : Nat) :
    ∀ (ps : List (List Instruction)) (acc : List Instruction),
      (mergeLoop payer maxSize acc ps).1 ++ (mergeLoop payer maxSize acc ps).2.flatten
        = acc ++ ps.flatten := by
  intro ps
  induction ps with
  | nil => intro acc; simp [mergeLoop]
  | cons p rest ih =>
    intro acc
    unfold mergeLoop
    by_cases hfit : txWireSize payer (acc ++ p) ≤ maxSize
    · rw [if_pos hfit]
      rw [ih (acc ++ p)]
      simp
    · rw [if_neg hfit]

lemma mergeLoop_length (payer maxSize : Nat) :
    ∀ (ps : List (List Instruction)) (acc : List Instruction),
      (mergeLoop payer maxSize acc ps).2.length ≤ ps.length := by
  intro ps
  induction ps with
  | nil => intro acc; simp [mergeLoop]
  | cons p rest ih =>
    intro acc
    unfold mergeLoop
    by_cases hfit : txWireSize payer (acc ++ p) ≤ maxSize
    · rw [if_pos hfit]
      exact Nat.le_trans (ih (acc ++ p)) (Nat.le_succ rest.length)
    · rw [if_neg hfit]

lemma buildNextCombinedFrom_spec {b1 : TransactionBuilder} {res : Option PreparedTransaction}
    {b' : TransactionBuilder} (hcur : b1.current_instruction_pack = [])
    (h : buildNextCombinedFrom b1 = .ok (res, b')) :
    optIns res ++ b'.instructions = b1.instructions ∧
      (res = none → b'.isEmptyB = true) := by
  unfold buildNextCombinedFrom at h
  cases hps : b1.instruction_packs with
  | nil =>
    rw [hps] at h; cases h
    refine ⟨rfl, fun _ => ?_⟩
    unfold TransactionBuilder.isEmptyB
    simp [hcur, hps]
  | cons pack rest =>
    rw [hps] at h
    simp only at h
    have hmerge :
        (if b1.max_transaction_size = 0 then ((pack :: rest).flatten, ([] : List (List Instruction)))
          else mergeLoop b1.fee_payer b1.max_transaction_size pack rest).1 ++
        (if b1.max_transaction_size = 0 then ((pack :: rest).flatten, ([] : List (List Instruction)))
          else mergeLoop b1.fee_payer b1.max_transaction_size pack rest).2.flatten
          = (pack :: rest).flatten := by
      by_cases hz : b1.max_transaction_size = 0
      · simp [hz]
      · simp only [if_neg hz]
        rw [mergeLoop_flatten]
        simp
    cases hchk : b1.is_check_signers with
    | false =>
      rw [hchk] at h
      simp only [Bool.false_eq_true, if_false] at h
      cases h
      constructor
      · simp only [optIns, PreparedTransaction.new_no_signers, Transaction.newWithPayer,
          Message.newWithPayer, TransactionBuilder.instructions, hcur, List.append_nil]
        rw [hmerge]
        simp [hps]
      · intro hn; cases hn
    | true =>
      rw [hchk] at h
      simp only [if_true] at h
      cases hnew : PreparedTransaction.new
          (Transaction.newWithPayer
            (if b1.max_transaction_size = 0 then ((pack :: rest).flatten, ([] : List (List Instruction)))
              else mergeLoop b1.fee_payer b1.max_transaction_size pack rest).1 b1.fee_payer)
          b1.signature_builder with
      | error k => rw [hnew] at h; cases h
      | ok pt =>
        rw [hnew] at h
        cases h
        constructor
        · have ht := prepared_new_transaction hnew
          simp only [optIns, ht, Transaction.newWithPayer, Message.newWithPayer,
            TransactionBuilder.instructions, hcur, List.append_nil]
          rw [hmerge]
          simp [hps]
        · intro hn; cases hn

lemma build_next_spec {b : TransactionBuilder} {res : Option PreparedTransaction}
    {b' : TransactionBuilder} (h : b.build_next = .ok (res, b')) :
    optIns res ++ b'.instructions = b.instructions ∧
      (res = none → b'.isEmptyB = true) := by
  have := buildNextFrom_spec (commitIfPending_current b) h
  rwa [commitIfPending_instructions] at this

lemma build_next_combined_spec {b : TransactionBuilder} {res : Option PreparedTransaction}
    {b' : TransactionBuilder} (h : b.build_next_combined = .ok (res, b')) :
    optIns res ++ b'.instructions = b.instructions ∧
      (res = none → b'.isEmptyB = true) := by
  have := buildNextCombinedFrom_spec (commitIfPending_current b) h
  rwa [commitIfPending_instructions] at this

/-- C10. Both build_next and build_next_combined first commit a non-empty
current pack before draining: the instructions of the returned envelope
followed by the instructions still held by the builder are exactly the
instructions held before the call (so no successfully added instruction is
lost by draining without an explicit commit), and a none result means the
builder is empty. -/
theorem c10_drain_commits_and_preserves (b : TransactionBuilder) :
    (∀ res b', b.build_next = .ok (res, b') →
      optIns res ++ b'.instructions = b.instructions ∧
        (res = none → b'.isEmptyB = true)) ∧
    (∀ res b', b.build_next_combined = .ok (res, b') →
      optIns res ++ b'.instructions = b.instructions ∧
        (res = none → b'.isEmptyB = true)) :=
  ⟨fun _ _ h => build_next_spec h, fun _ _ h => build_next_combined_spec h⟩

/-- Witness for C10 at a concrete input: an empty builder returns none from
build_next and is empty. -/
theorem c10_witness :
    optIns none ++ (TransactionBuilder.new 0 0).instructions
        = (TransactionBuilder.new 0 0).instructions ∧
      (none = (none : Option PreparedTransaction) →
        (TransactionBuilder.new 0 0).isEmptyB = true) :=
  (c10_drain_commits_and_preserves (TransactionBuilder.new 0 0)).1 none
    (TransactionBuilder.new 0 0) (by rfl)

lemma commitIfPending_of_empty {b : TransactionBuilder}
    (h : b.current_instruction_pack = []) : commitIfPending b = b := by
  unfold commitIfPending
  simp [h]

lemma buildNextCombinedFrom_none {b1 : TransactionBuilder} {b' : TransactionBuilder}
    (h : buildNextCombinedFrom b1 = .ok (none, b')) :
    b' = b1 ∧ b1.instruction_packs = [] := by
  unfold buildNextCombinedFrom at h
  cases hps : b1.instruction_packs with
  | nil => rw [hps] at h; cases h; exact ⟨rfl, rfl⟩
  | cons pack rest =>
    rw [hps] at h
    simp only at h
    cases hchk : b1.is_check_signers with
    | false =>
      rw [hchk] at h
      simp only [Bool.false_eq_true, if_false] at h
      cases h
    | true =>
      rw [hchk] at h
      simp only [if_true] at h
      cases hnew : PreparedTransaction.new
          (Transaction.newWithPayer
            (if b1.max_transaction_size = 0 then ((pack :: rest).flatten, ([] : List (List Instruction)))
              else mergeLoop b1.fee_payer b1.max_transaction_size pack rest).1 b1.fee_payer)
          b1.signature_builder with
      | error k => rw [hnew] at h; cases h
      | ok pt => rw [hnew] at h; cases h

lemma buildNextCombinedFrom_some {b1 : TransactionBuilder} {pt : PreparedTransaction}
    {b' : TransactionBuilder} (h : buildNextCombinedFrom b1 = .ok (some pt, b')) :
    b'.instruction_packs.length < b1.instruction_packs.length ∧
      b'.current_instruction_pack = b1.current_instruction_pack := by
  unfold buildNextCombinedFrom at h
  cases hps : b1.instruction_packs with
  | nil => rw [hps] at h; cases h
  | cons pack rest =>
    rw [hps] at h
    simp only at h
    have hlen : (if b1.max_transaction_size = 0
        then ((pack :: rest).flatten, ([] : List (List Instruction)))
        else mergeLoop b1.fee_payer b1.max_transaction_size pack rest).2.length
          < (pack :: rest).length := by
      by_cases hz : b1.max_transaction_size = 0
      · simp [hz]
      · simp only [if_neg hz, List.length_cons]
        exact Nat.lt_succ_of_le (mergeLoop_length b1.fee_payer b1.max_transaction_size rest pack)
    cases hchk : b1.is_check_signers with
    | false =>
      rw [hchk] at h
      simp only [Bool.false_eq_true, if_false] at h
      cases h
      exact ⟨by simpa using hlen, rfl⟩
    | true =>
      rw [hchk] at h
      simp only [if_true] at h
      cases hnew : PreparedTransaction.new
          (Transaction.newWithPayer
            (if b1.max_transaction_size = 0 then ((pack :: rest).flatten, ([] : List (List Instruction)))
              else mergeLoop b1.fee_payer b1.max_transaction_size pack rest).1 b1.fee_payer)
          b1.signature_builder with
      | error k => rw [hnew] at h; cases h
      | ok pt' =>
        rw [hnew] at h
        cases h
        exact ⟨by simpa using hlen, rfl⟩

/-- Instruction lists of a drained envelope sequence, concatenated. -/
def drainedIns (pts : List PreparedTransaction) : List Instruction :=
  (pts.map fun pt => pt.transaction.message.instructions).flatten

lemma drainAux_spec : ∀ (fuel : Nat) (b : TransactionBuilder),
    b.current_instruction_pack = [] → b.instruction_packs.length < fuel →
    ∀ pts b', drainCombinedAux fuel b = .ok (pts, b') →
      drainedIns pts ++ b'.instructions = b.instructions ∧ b'.isEmptyB = true := by
  intro fuel
  induction fuel with
  | zero => intro b _ hlt; cases hlt
  | succ n ih =>
    intro b hcur hlt pts b' h
    rw [drainCombinedAux] at h
    cases hb : b.build_next_combined with
    | error k => rw [hb] at h; cases h
    | ok r =>
      obtain ⟨res, b2⟩ := r
      cases res with
      | none =>
        rw [hb] at h
        dsimp only at h
        injection h with h1
        injection h1 with hpts hb'
        subst hpts; subst hb'
        refine ⟨(build_next_combined_spec hb).1, ?_⟩
        exact ((build_next_combined_spec hb).2) rfl
      | some pt =>
        rw [hb] at h
        dsimp only at h
        cases hrec : drainCombinedAux n b2 with
        | error k => rw [hrec] at h; cases h
        | ok r2 =>
          obtain ⟨pts', b''⟩ := r2
          rw [hrec] at h
          dsimp only at h
          injection h with h1
          injection h1 with hpts hb'
          subst hpts; subst hb'
          have hsome : buildNextCombinedFrom b = .ok (some pt, b2) := by
            have heq : b.build_next_combined = buildNextCombinedFrom b := by
              unfold TransactionBuilder.build_next_combined
              rw [commitIfPending_of_empty hcur]
            rw [← heq]; exact hb
          obtain ⟨hlen2, hcur2⟩ := buildNextCombinedFrom_some hsome
          have hcur2' : b2.current_instruction_pack = [] := by rw [hcur2, hcur]
          have hlt2 : b2.instruction_packs.length < n := by omega
          obtain ⟨hc, he⟩ := ih b2 hcur2' hlt2 pts' b'' hrec
          obtain ⟨hc1, _⟩ := build_next_combined_spec hb
          refine ⟨?_, he⟩
          show drainedIns (pt :: pts') ++ b''.instructions = b.instructions
          have hdi : drainedIns (pt :: pts')
              = pt.transaction.message.instructions ++ drainedIns pts' := by
            simp [drainedIns]
          rw [hdi, List.append_assoc, hc]
          exact hc1

lemma commitIfPending_packs_le (b : TransactionBuilder) :
    (commitIfPending b).instruction_packs.length ≤ b.instruction_packs.length + 1 := by
  unfold commitIfPending
  by_cases h : b.current_instruction_pack.isEmpty
  · simp [h]
  · simp [h, TransactionBuilder.finish_instruction_pack]

lemma drainCombined_spec {b : TransactionBuilder} {pts : List PreparedTransaction}
    {b' : TransactionBuilder} (h : drainCombined b = .ok (pts, b')) :
    drainedIns pts ++ b'.instructions = b.instructions ∧ b'.isEmptyB = true := by
  rw [drainCombined, drainCombinedAux] at h
  cases hb : b.build_next_combined with
  | error k => rw [hb] at h; cases h
  | ok r =>
    obtain ⟨res, b2⟩ := r
    cases res with
    | none =>
      rw [hb] at h
      dsimp only at h
      injection h with h1
      injection h1 with hpts hb'
      subst hpts; subst hb'
      refine ⟨(build_next_combined_spec hb).1, ?_⟩
      exact ((build_next_combined_spec hb).2) rfl
    | some pt =>
      rw [hb] at h
      dsimp only at h
      cases hrec : drainCombinedAux (b.instruction_packs.length + 1) b2 with
      | error k => rw [hrec] at h; cases h
      | ok r2 =>
        obtain ⟨pts', b''⟩ := r2
        rw [hrec] at h
        dsimp only at h
        injection h with h1
        injection h1 with hpts hb'
        subst hpts; subst hb'
        have hsome : buildNextCombinedFrom (commitIfPending b) = .ok (some pt, b2) := hb
        obtain ⟨hlen2, hcur2⟩ := buildNextCombinedFrom_some hsome
        have hcur2' : b2.current_instruction_pack = [] := by
          rw [hcur2]; exact commitIfPending_current b
        have hlt2 : b2.instruction_packs.length < b.instruction_packs.length + 1 := by
          have := commitIfPending_packs_le b
          omega
        obtain ⟨hc, he⟩ := drainAux_spec (b.instruction_packs.length + 1) b2 hcur2' hlt2
          pts' b'' hrec
        obtain ⟨hc1, _⟩ := build_next_combined_spec hb
        refine ⟨?_, he⟩
        show drainedIns (pt :: pts') ++ b''.instructions = b.instructions
        have hdi : drainedIns (pt :: pts')
            = pt.transaction.message.instructions ++ drainedIns pts' := by
          simp [drainedIns]
        rw [hdi, List.append_assoc, hc]
        exact hc1

/-- The merge loop consumes exactly a prefix of the queue: there is a k with
the accumulated instructions extended by the first k packs, the remaining
queue being the corresponding suffix, and, when a pack is left behind, the
merged envelope including that next pack exceeds the maximum. -/
lemma mergeLoop_take_drop (payer maxSize : Nat) :
    ∀ (ps : List (List Instruction)) (acc : List Instruction),
      ∃ k, k ≤ ps.length ∧
        (mergeLoop payer maxSize acc ps).1 = acc ++ (ps.take k).flatten ∧
        (mergeLoop payer maxSize acc ps).2 = ps.drop k ∧
        ∀ p rest2, ps.drop k = p :: rest2 →
          maxSize < txWireSize payer ((acc ++ (ps.take k).flatten) ++ p) := by
  intro ps
  induction ps with
  | nil =>
    intro acc
    refine ⟨0, Nat.le_refl 0, by simp [mergeLoop], by simp [mergeLoop], ?_⟩
    intro p rest2 hd; cases hd
  | cons p rest ih =>
    intro acc
    by_cases hfit : txWireSize payer (acc ++ p) ≤ maxSize
    · obtain ⟨k', hk'le, h1, h2, h3⟩ := ih (acc ++ p)
      refine ⟨k' + 1, by simpa using Nat.succ_le_succ hk'le, ?_, ?_, ?_⟩
      · show (mergeLoop payer maxSize acc (p :: rest)).1 = _
        unfold mergeLoop
        rw [if_pos hfit, h1]
        simp
      · show (mergeLoop payer maxSize acc (p :: rest)).2 = _
        unfold mergeLoop
        rw [if_pos hfit, h2]
        rfl
      · intro q rest2 hd
        have := h3 q rest2 (by simpa using hd)
        simpa [List.append_assoc] using this
    · refine ⟨0, Nat.zero_le _, ?_, ?_, ?_⟩
      · show (mergeLoop payer maxSize acc (p :: rest)).1 = _
        unfold mergeLoop
        rw [if_neg hfit]
        simp
      · show (mergeLoop payer maxSize acc (p :: rest)).2 = _
        unfold mergeLoop
        rw [if_neg hfit]
        rfl
      · intro q rest2 hd
        have hq : q = p := by
          simp only [List.drop_zero] at hd
          cases hd; rfl
        subst hq
        simpa using Nat.lt_of_not_le hfit

/-- C2. Repeatedly calling build_next_combined until it returns none yields
envelopes whose concatenated instruction sequence equals the concatenation of
the committed packs (and of the pending current pack) in original commit
order, and each single call with a nonzero maximum consumes a non-empty
prefix of the committed queue in order, leaving the suffix for the next call
and stopping, without error, exactly when appending the next pack would
exceed the maximum. -/
theorem c2_combined_drain_order (b : TransactionBuilder) :
    (∀ pts b', drainCombined b = .ok (pts, b') → drainedIns pts = b.instructions) ∧
    (∀ pt b', b.current_instruction_pack = [] → 0 < b.max_transaction_size →
      b.build_next_combined = .ok (some pt, b') →
      ∃ k, 1 ≤ k ∧ k ≤ b.instruction_packs.length ∧
        pt.transaction.message.instructions = (b.instruction_packs.take k).flatten ∧
        b'.instruction_packs = b.instruction_packs.drop k ∧
        ∀ p rest2, b.instruction_packs.drop k = p :: rest2 →
          b.max_transaction_size <
            txWireSize b.fee_payer (pt.transaction.message.instructions ++ p)) := by
  constructor
  · intro pts b' h
    obtain ⟨hc, he⟩ := drainCombined_spec h
    have hie : b'.instructions = [] := by
      unfold TransactionBuilder.isEmptyB at he
      simp only [Bool.and_eq_true, List.isEmpty_iff] at he
      simp [TransactionBuilder.instructions, he.1, he.2]
    rw [hie, List.append_nil] at hc
    exact hc
  · intro pt b' hcur hpos h
    have heq : b.build_next_combined = buildNextCombinedFrom b := by
      unfold TransactionBuilder.build_next_combined
      rw [commitIfPending_of_empty hcur]
    rw [heq] at h
    unfold buildNextCombinedFrom at h
    cases hps : b.instruction_packs with
    | nil => rw [hps] at h; cases h
    | cons pack rest =>
      rw [hps] at h
      dsimp only at h
      have hz : ¬ b.max_transaction_size = 0 := by omega
      rw [if_neg hz] at h
      obtain ⟨k', hk'le, h1, h2, h3⟩ :=
        mergeLoop_take_drop b.fee_payer b.max_transaction_size rest pack
      have hptx : pt.transaction.message.instructions
          = (mergeLoop b.fee_payer b.max_transaction_size pack rest).1 ∧
          b'.instruction_packs
            = (mergeLoop b.fee_payer b.max_transaction_size pack rest).2 := by
        cases hchk : b.is_check_signers with
        | false =>
          rw [hchk] at h
          simp only [Bool.false_eq_true, if_false] at h
          injection h with h1'
          injection h1' with hpt hb'
          have hpt2 := Option.some.inj hpt
          subst hpt2; subst hb'
          exact ⟨rfl, rfl⟩
        | true =>
          rw [hchk] at h
          simp only [if_true] at h
          cases hnew : PreparedTransaction.new
              (Transaction.newWithPayer
                (mergeLoop b.fee_payer b.max_transaction_size pack rest).1 b.fee_payer)
              b.signature_builder with
          | error k => rw [hnew] at h; cases h
          | ok pt0 =>
            rw [hnew] at h
            injection h with h1'
            injection h1' with hpt hb'
            have hpt2 := Option.some.inj hpt
            subst hpt2; subst hb'
            exact ⟨congrArg (fun t => t.message.instructions)
              (prepared_new_transaction hnew), rfl⟩
      refine ⟨k' + 1, Nat.succ_le_succ (Nat.zero_le k'), by simpa using Nat.succ_le_succ hk'le,
        ?_, ?_, ?_⟩
      · rw [hptx.1, h1]
        simp
      · rw [hptx.2, h2]
        rfl
      · intro p rest2 hd
        have := h3 p rest2 (by simpa using hd)
        rw [hptx.1, h1]
        simpa [List.append_assoc] using this

/-- Builder with two committed single-instruction packs under a 185-byte
maximum: each pack alone serializes to 179 bytes, the merge of both to 192
bytes, so combined draining produces exactly two envelopes. -/
def bTwoPacks : TransactionBuilder :=
  applyOps (TransactionBuilder.new 0 185)
    [.add ixSmall, .commit, .add ixSmall, .commit]

/-- The prepared envelope holding one ixSmall with fee payer 0. -/
def ptSmall : PreparedTransaction :=
  ⟨⟨[none], ⟨1, 0, 1, [0, 1], 0, [ixSmall]⟩⟩, [0]⟩

/-- bTwoPacks after one combined call: one pack left. -/
def bTwoPacksAfterOne : TransactionBuilder :=
  { fee_payer := 0, signature_builder := ⟨[0], true⟩,
    instruction_packs := [[ixSmall]], current_instruction_pack := [],
    max_transaction_size := 185, is_check_signers := true }

/-- Witness for C2 at a concrete input: the first combined call on the
two-pack builder consumes exactly one pack and leaves the second, which does
not fit together with the first. -/
theorem c2_witness :
    ∃ k, 1 ≤ k ∧ k ≤ bTwoPacks.instruction_packs.length ∧
      ptSmall.transaction.message.instructions = (bTwoPacks.instruction_packs.take k).flatten ∧
      bTwoPacksAfterOne.instruction_packs = bTwoPacks.instruction_packs.drop k ∧
      ∀ p rest2, bTwoPacks.instruction_packs.drop k = p :: rest2 →
        bTwoPacks.max_transaction_size <
          txWireSize bTwoPacks.fee_payer (ptSmall.transaction.message.instructions ++ p) :=
  (c2_combined_drain_order bTwoPacks).2 ptSmall bTwoPacksAfterOne
    (by decide) (by decide) (by rfl)

/-! ### C5: the blockhash retry loop -/

/-- Oracle whose every attempt fails with the transient BlockhashNotFound
error. -/
def alwaysTransient : AttemptOracle :=
  fun _ => .error (.transactionErr .BlockhashNotFound)

/-- Scenario C oracle: two transient failures, then success with signature 42. -/
def twoTransientThenOk : AttemptOracle :=
  fun i => if i < 2 then .error (.transactionErr .BlockhashNotFound) else .ok 42

lemma retryAuxW_transient_all :
    ∀ (fuel rc i : Nat) (lastE : ClientErrorKind), rc ≤ 65535 →
      retryAuxW alwaysTransient 65535 fuel rc i lastE = (none, i + fuel) := by
  intro fuel
  induction fuel with
  | zero => intro rc i lastE _; rfl
  | succ n ih =>
    intro rc i lastE hrc
    rw [retryAuxW]
    rw [if_pos hrc]
    show retryAuxW alwaysTransient 65535 n ((rc + 1) % 65536) (i + 1) _ = (none, i + (n + 1))
    rw [ih ((rc + 1) % 65536) (i + 1) _
      (Nat.le_of_lt_succ (Nat.mod_lt _ (by norm_num)))]
    have : i + 1 + n = i + (n + 1) := by omega
    rw [this]

/-- C5. The retry loop as coded does not obey the claimed bound at the edge
of the u16 budget: with retries = 65535 (u16::MAX) and persistently
transient errors, retry_count wraps modulo 2^16, the loop condition
retry_count <= retries never fails, and the loop runs forever, making one
submission attempt (and one freshness-token fetch) per iteration and
exceeding the claimed maximum of retries + 1 attempts. At ordinary budgets
the claimed behaviour holds, as the Scenario C evaluation shows: with
retries = 2 and two transient failures followed by a success, the loop
returns the success signature after exactly three attempts (three token
fetches). -/
theorem c5_retry_budget_overflow :
    (∀ fuel, retryBlockhashInternal alwaysTransient 65535 fuel = (none, fuel)) ∧
    retryBlockhashInternal twoTransientThenOk 2 10 = (some (.ok 42), 3) := by
  constructor
  · intro fuel
    have := retryAuxW_transient_all fuel 0 0 initialRetryError (by norm_num)
    simpa [retryBlockhashInternal] using this
  · rfl

/-! ### C8: resolved signer lists -/

lemma mem_insertKey (m k : Pubkey) (l : List Pubkey) :
    m ∈ insertKey k l ↔ m = k ∨ m ∈ l := by
  induction l with
  | nil => simp [insertKey]
  | cons x xs ih =>
    unfold insertKey
    by_cases h1 : k < x
    · simp [h1]
    · by_cases h2 : k = x
      · subst h2
        simp [h1]
      · simp [h1, h2, ih]
        tauto

lemma sortedDedup_mem (k : Pubkey) (l : List Pubkey) :
    k ∈ sortedDedup l ↔ k ∈ l := by
  induction l with
  | nil => simp [sortedDedup]
  | cons x xs ih =>
    show k ∈ insertKey x (sortedDedup xs) ↔ _
    rw [mem_insertKey]
    simp [ih]

lemma insertKey_sorted (k : Pubkey) (l : List Pubkey) (h : l.Sorted (· < ·)) :
    (insertKey k l).Sorted (· < ·) := by
  induction l with
  | nil => simp [insertKey]
  | cons x xs ih =>
    unfold insertKey
    rw [List.sorted_cons] at h
    by_cases h1 : k < x
    · rw [if_pos h1]
      rw [List.sorted_cons]
      refine ⟨?_, List.sorted_cons.mpr h⟩
      intro y hy
      cases List.mem_cons.mp hy with
      | inl hx => rw [hx]; exact h1
      | inr hxs => exact Nat.lt_trans h1 (h.1 y hxs)
    · by_cases h2 : k = x
      · rw [if_neg h1, if_pos h2]
        exact List.sorted_cons.mpr h
      · rw [if_neg h1, if_neg h2]
        rw [List.sorted_cons]
        refine ⟨?_, ih h.2⟩
        intro y hy
        cases (mem_insertKey y k xs).mp hy with
        | inl hk =>
          rw [hk]
          exact Nat.lt_of_le_of_ne (Nat.le_of_not_lt h1) fun he => h2 he.symm
        | inr hxs => exact h.1 y hxs

lemma sortedDedup_sorted (l : List Pubkey) : (sortedDedup l).Sorted (· < ·) := by
  induction l with
  | nil => simp [sortedDedup]
  | cons x xs ih => exact insertKey_sorted x (sortedDedup xs) ih

lemma sortedDedup_nodup (l : List Pubkey) : (sortedDedup l).Nodup :=
  (sortedDedup_sorted l).nodup

lemma keyIsSigner_mem {ins : List Instruction} {k : Pubkey}
    (h : keyIsSigner ins k = true) : k ∈ mentionedKeys ins := by
  unfold keyIsSigner at h
  simp only [List.any_eq_true, Bool.and_eq_true, decide_eq_true_eq] at h
  obtain ⟨i, hi, a, ha, hpk, hs⟩ := h
  unfold mentionedKeys
  rw [List.mem_flatMap]
  refine ⟨i, hi, ?_⟩
  rw [List.mem_cons]
  right
  rw [List.mem_map]
  exact ⟨a, ha, hpk⟩

lemma accountKeys_take (payer : Pubkey) (ins : List Instruction) :
    (accountKeys payer ins).take (numRequiredSignatures payer ins)
      = writableSignerKeys payer ins ++ readonlySignerKeys payer ins := by
  unfold accountKeys numRequiredSignatures
  rw [← List.length_append]
  rw [show writableSignerKeys payer ins ++ readonlySignerKeys payer ins
      ++ writableNonSignerKeys payer ins ++ readonlyNonSignerKeys payer ins
    = (writableSignerKeys payer ins ++ readonlySignerKeys payer ins)
      ++ (writableNonSignerKeys payer ins ++ readonlyNonSignerKeys payer ins) by
    simp [List.append_assoc]]
  exact List.take_left _ _

lemma mem_signedKeys (payer : Pubkey) (ins : List Instruction) (k : Pubkey) :
    k ∈ writableSignerKeys payer ins ++ readonlySignerKeys payer ins ↔
      (k = payer ∨ keyIsSigner ins k = true) := by
  unfold writableSignerKeys readonlySignerKeys
  simp only [List.cons_append, List.mem_cons, List.mem_append, List.mem_filter,
    Bool.and_eq_true, decide_eq_true_eq, Bool.not_eq_eq_eq_not, Bool.not_true]
  constructor
  · rintro (hk | ⟨_, ⟨_, hs⟩, _⟩ | ⟨_, ⟨_, hs⟩, _⟩)
    · exact Or.inl hk
    · exact Or.inr hs
    · exact Or.inr hs
  · rintro (hk | hs)
    · exact Or.inl hk
    · by_cases hkp : k = payer
      · exact Or.inl hkp
      · have hmem : k ∈ sortedDedup (mentionedKeys ins) :=
          (sortedDedup_mem k _).mpr (keyIsSigner_mem hs)
        by_cases hw : keyIsWritable ins k = true
        · exact Or.inr (Or.inl ⟨hmem, ⟨hkp, hs⟩, hw⟩)
        · refine Or.inr (Or.inr ⟨hmem, ⟨hkp, hs⟩, ?_⟩)
          cases hwb : keyIsWritable ins k with
          | false => rfl
          | true => exact absurd hwb hw

lemma signedKeys_nodup (payer : Pubkey) (ins : List Instruction) :
    (writableSignerKeys payer ins ++ readonlySignerKeys payer ins).Nodup := by
  unfold writableSignerKeys readonlySignerKeys
  rw [List.cons_append, List.nodup_cons]
  constructor
  · intro hmem
    cases List.mem_append.mp hmem with
    | inl hA =>
      have := (List.mem_filter.mp hA).2
      simp only [Bool.and_eq_true, decide_eq_true_eq] at this
      exact this.1.1 rfl
    | inr hB =>
      have := (List.mem_filter.mp hB).2
      simp only [Bool.and_eq_true, decide_eq_true_eq] at this
      exact this.1.1 rfl
  · refine List.Nodup.append ((sortedDedup_nodup _).filter _)
      ((sortedDedup_nodup _).filter _) ?_
    intro x hxA hxB
    have hA := (List.mem_filter.mp hxA).2
    have hB := (List.mem_filter.mp hxB).2
    simp only [Bool.and_eq_true, decide_eq_true_eq] at hA hB
    rw [hA.2] at hB
    cases hB.2

lemma mapM_resolve (sb : SignatureBuilder) (l : List Pubkey)
    (h : ∀ k ∈ l, sb.signers.contains k = true) :
    (l.mapM fun k => if sb.signers.contains k then Except.ok k
      else Except.error k : Except Pubkey (List Pubkey)) = .ok l := by
  induction l with
  | nil => rfl
  | cons x xs ih =>
    rw [List.mapM_cons]
    rw [if_pos (h x (List.mem_cons_self x xs))]
    rw [ih fun k hk => h k (List.mem_cons_of_mem x hk)]
    rfl

lemma signers_for_newWithPayer (payer : Pubkey) (pack : List Instruction)
    (sb : SignatureBuilder)
    (hpayer : sb.signers.contains payer = true)
    (hcov : ∀ i ∈ pack, ∀ a ∈ i.accounts, a.is_signer = true →
      sb.signers.contains a.pubkey = true) :
    sb.signers_for_transaction (Transaction.newWithPayer pack payer)
      = .ok (writableSignerKeys payer pack ++ readonlySignerKeys payer pack) := by
  unfold SignatureBuilder.signers_for_transaction
  have htake : (Transaction.newWithPayer pack payer).message.account_keys.take
      (Transaction.newWithPayer pack payer).message.numRequiredSignatures
      = writableSignerKeys payer pack ++ readonlySignerKeys payer pack :=
    accountKeys_take payer pack
  rw [htake]
  apply mapM_resolve
  intro k hk
  cases (mem_signedKeys payer pack k).mp hk with
  | inl hkp => rw [hkp]; exact hpayer
  | inr hs =>
    unfold keyIsSigner at hs
    simp only [List.any_eq_true, Bool.and_eq_true, decide_eq_true_eq] at hs
    obtain ⟨i, hi, a, ha, hpk, hsg⟩ := hs
    rw [← hpk]
    exact hcov i hi a ha hsg

/-- C8. Draining a builder holding one committed pack via build_next yields a
prepared envelope whose resolved signer list has the fee payer's capability
first, is duplicate-free, and contains exactly the distinct signer-flagged
account identifiers of the pack's descriptors together with the fee payer
(provided, as the builder's add-path enforces, that all of them are
registered). -/
theorem c8_resolved_signer_list (payer maxSize : Nat) (sb : SignatureBuilder)
    (pack : List Instruction)
    (hpayer : sb.signers.contains payer = true)
    (hcov : ∀ i ∈ pack, ∀ a ∈ i.accounts, a.is_signer = true →
      sb.signers.contains a.pubkey = true) :
    ∃ pt b',
      TransactionBuilder.build_next
        ⟨payer, sb, [pack], [], maxSize, true⟩ = .ok (some pt, b') ∧
      pt.signers.head? = some payer ∧
      pt.signers.Nodup ∧
      ∀ k, k ∈ pt.signers ↔ (k = payer ∨ keyIsSigner pack k = true) := by
  have hnew : PreparedTransaction.new (Transaction.newWithPayer pack payer) sb
      = .ok ⟨Transaction.newWithPayer pack payer,
          writableSignerKeys payer pack ++ readonlySignerKeys payer pack⟩ := by
    unfold PreparedTransaction.new
    rw [signers_for_newWithPayer payer pack sb hpayer hcov]
  refine ⟨⟨Transaction.newWithPayer pack payer,
      writableSignerKeys payer pack ++ readonlySignerKeys payer pack⟩,
    ⟨payer, sb, [], [], maxSize, true⟩, ?_, ?_, ?_, ?_⟩
  · show buildNextFrom (commitIfPending _) = _
    rw [commitIfPending_of_empty rfl]
    unfold buildNextFrom
    rw [if_neg (by simp [TransactionBuilder.isEmptyB])]
    dsimp only
    rw [if_pos rfl]
    rw [hnew]
  · show (writableSignerKeys payer pack ++ readonlySignerKeys payer pack).head? = _
    unfold writableSignerKeys
    rfl
  · exact signedKeys_nodup payer pack
  · exact mem_signedKeys payer pack

/-- Witness for C8 at a concrete input: one pack of two descriptors sharing
signer 3 and mentioning signer 5 once, registry {0, 3, 5}, fee payer 0. -/
theorem c8_witness :
    ∃ pt b',
      TransactionBuilder.build_next
        ⟨0, ⟨[0, 3, 5], true⟩,
          [[⟨1, [⟨3, true, true⟩, ⟨5, true, false⟩], [7]⟩,
            ⟨1, [⟨3, true, true⟩], []⟩]], [], 0, true⟩ = .ok (some pt, b') ∧
      pt.signers.head? = some 0 ∧
      pt.signers.Nodup ∧
      ∀ k, k ∈ pt.signers ↔ (k = 0 ∨
        keyIsSigner [⟨1, [⟨3, true, true⟩, ⟨5, true, false⟩], [7]⟩,
          ⟨1, [⟨3, true, true⟩], []⟩] k = true) :=
  c8_resolved_signer_list 0 0 ⟨[0, 3, 5], true⟩
    [⟨1, [⟨3, true, true⟩, ⟨5, true, false⟩], [7]⟩, ⟨1, [⟨3, true, true⟩], []⟩]
    (by decide) (by decide)

/-! ### C9: re-signing fully replaces signatures -/

/-- Keys of the signed region account_keys[0..num_required_signatures]. -/
def signedKeysOf (t : Transaction) : List Pubkey :=
  t.message.account_keys.take t.message.numRequiredSignatures

lemma findPos_append_cons (k : Pubkey) (pre rest : List Pubkey) (hk : k ∉ pre) :
    findPos k (pre ++ k :: rest) = some pre.length := by
  induction pre with
  | nil => simp [findPos]
  | cons x xs ih =>
    have hxk : ¬ x = k := fun he => hk (by rw [he]; exact List.mem_cons_self k xs)
    show findPos k (x :: (xs ++ k :: rest)) = _
    unfold findPos
    rw [if_neg hxk]
    rw [ih fun hm => hk (List.mem_cons_of_mem x hm)]
    rfl

lemma mapM_findPos_aux (full : List Pubkey) (hnd : full.Nodup) :
    ∀ (suf pre : List Pubkey), full = pre ++ suf →
      (suf.mapM fun k => findPos k full) = some (List.range' pre.length suf.length) := by
  intro suf
  induction suf with
  | nil => intro pre _; rfl
  | cons k suf' ih =>
    intro pre hfull
    have hknotpre : k ∉ pre := by
      rw [hfull] at hnd
      rcases List.nodup_append.mp hnd with ⟨_, _, hdisj⟩
      intro hkpre
      exact hdisj hkpre (List.mem_cons_self k suf')
    rw [List.mapM_cons]
    rw [hfull, findPos_append_cons k pre suf' hknotpre]
    rw [← hfull]
    rw [ih (pre ++ [k]) (by rw [hfull]; simp)]
    simp [List.range'_succ]

lemma mapM_findPos (l : List Pubkey) (hnd : l.Nodup) :
    (l.mapM fun k => findPos k l) = some (List.range l.length) := by
  have := mapM_findPos_aux l hnd l [] rfl
  simpa [List.range_eq_range'] using this

lemma set_append_len {α : Type} (pre : List α) (b0 : α) (rest : List α) (v : α) :
    (pre ++ b0 :: rest).set pre.length v = pre ++ v :: rest := by
  induction pre with
  | nil => rfl
  | cons x xs ih => simp [List.set, ih]

lemma foldl_set_zip_range (f : Pubkey → Option Sig) :
    ∀ (ks : List Pubkey) (pre base : List (Option Sig)), base.length = ks.length →
      ((ks.zip (List.range' pre.length ks.length)).foldl
        (fun acc kp => acc.set kp.2 (f kp.1)) (pre ++ base))
        = pre ++ ks.map f := by
  intro ks
  induction ks with
  | nil =>
    intro pre base hlen
    rw [List.length_nil] at hlen
    rw [List.eq_nil_of_length_eq_zero hlen]
    rfl
  | cons k ks' ih =>
    intro pre base hlen
    cases base with
    | nil => cases hlen
    | cons b0 base' =>
      rw [List.length_cons, List.length_cons] at hlen
      have hlen' : base'.length = ks'.length := Nat.succ_injective hlen
      rw [List.length_cons, List.range'_succ]
      show List.foldl _ ((pre ++ b0 :: base').set pre.length (f k)) (ks'.zip (List.range' (pre.length + 1) ks'.length)) = _
      rw [set_append_len]
      have hpre1 : pre.length + 1 = (pre ++ [f k]).length := by simp
      rw [hpre1]
      have := ih (pre ++ [f k]) base' hlen'
      rw [show pre ++ [f k] ++ base' = pre ++ f k :: base' by simp] at this
      rw [this]
      simp

lemma foldl_set_zip_range0 (f : Pubkey → Option Sig) (ks : List Pubkey)
    (base : List (Option Sig)) (hlen : base.length = ks.length) :
    ((ks.zip (List.range' 0 ks.length)).foldl
      (fun acc kp => acc.set kp.2 (f kp.1)) base) = ks.map f := by
  have := foldl_set_zip_range f ks [] base hlen
  simpa using this

lemma trySign_all (t : Transaction) (h : Hash)
    (hnd : (signedKeysOf t).Nodup)
    (hlen : t.message.numRequiredSignatures ≤ t.message.account_keys.length)
    (hsig : t.signatures.length = t.message.numRequiredSignatures) :
    t.trySign (signedKeysOf t) h
      = .ok ⟨(signedKeysOf t).map
            (fun k => some (sigOf k { t.message with recent_blockhash := h })),
          { t.message with recent_blockhash := h }⟩ := by
  have hkslen : (signedKeysOf t).length = t.message.numRequiredSignatures := by
    unfold signedKeysOf
    rw [List.length_take]
    omega
  unfold Transaction.trySign
  dsimp only
  rw [show t.message.account_keys.take t.message.numRequiredSignatures = signedKeysOf t
    from rfl]
  rw [mapM_findPos (signedKeysOf t) hnd]
  dsimp only
  by_cases hb : h = t.message.recent_blockhash
  · rw [if_neg (show ¬ h ≠ t.message.recent_blockhash from fun hne' => hne' hb)]
    dsimp only
    have hmsg : ({ t.message with recent_blockhash := h } : Message) = t.message := by
      rw [hb]
    rw [hmsg]
    rw [List.range_eq_range']
    rw [foldl_set_zip_range0 (fun k => some (sigOf k t.message)) (signedKeysOf t)
      t.signatures (by rw [hsig, hkslen])]
    rw [if_pos (by simp)]
  · rw [if_pos (show h ≠ t.message.recent_blockhash from hb)]
    dsimp only
    rw [List.range_eq_range']
    rw [foldl_set_zip_range0
      (fun k => some (sigOf k { t.message with recent_blockhash := h })) (signedKeysOf t)
      (List.replicate t.message.numRequiredSignatures none)
      (by rw [List.length_replicate, hkslen])]
    rw [if_pos (by simp)]

/-- C9. Signing a well-formed prepared envelope (resolved signers are exactly
the signed-region keys) with token h1 and then with a different token h2
leaves exactly the signatures over the message carrying h2, one per signed
key in slot order; no signature produced under h1 survives. -/
theorem c9_resign_replaces (pt : PreparedTransaction) (h1 h2 : Hash)
    (hsigners : pt.signers = signedKeysOf pt.transaction)
    (hnd : (signedKeysOf pt.transaction).Nodup)
    (hlen : pt.transaction.message.numRequiredSignatures
      ≤ pt.transaction.message.account_keys.length)
    (hsig : pt.transaction.signatures.length = pt.transaction.message.numRequiredSignatures)
    (_hne : h1 ≠ h2) :
    ∃ pt2, ((pt.sign h1).bind fun p => p.sign h2) = .ok pt2 ∧
      pt2.transaction.signatures = (signedKeysOf pt.transaction).map
        (fun k => some (sigOf k { pt.transaction.message with recent_blockhash := h2 })) ∧
      ∀ s ∈ pt2.transaction.signatures, ∀ k m, s = some (sigOf k m) →
        m.recent_blockhash = h2 := by
  have h1sign := trySign_all pt.transaction h1 hnd hlen hsig
  have hkeys1 : signedKeysOf (⟨(signedKeysOf pt.transaction).map
      (fun k => some (sigOf k { pt.transaction.message with recent_blockhash := h1 })),
    { pt.transaction.message with recent_blockhash := h1 }⟩ : Transaction)
      = signedKeysOf pt.transaction := rfl
  have h2sign := trySign_all (⟨(signedKeysOf pt.transaction).map
      (fun k => some (sigOf k { pt.transaction.message with recent_blockhash := h1 })),
    { pt.transaction.message with recent_blockhash := h1 }⟩ : Transaction) h2
    (by rw [hkeys1]; exact hnd)
    (by
      show pt.transaction.message.numRequiredSignatures
        ≤ pt.transaction.message.account_keys.length
      exact hlen)
    (by
      show ((signedKeysOf pt.transaction).map _).length
        = pt.transaction.message.numRequiredSignatures
      rw [List.length_map]
      unfold signedKeysOf
      rw [List.length_take]
      omega)
  refine ⟨⟨⟨(signedKeysOf pt.transaction).map
      (fun k => some (sigOf k { pt.transaction.message with recent_blockhash := h2 })),
    { pt.transaction.message with recent_blockhash := h2 }⟩, pt.signers⟩, ?_, rfl, ?_⟩
  · show ((pt.sign h1).bind fun p => p.sign h2) = _
    unfold PreparedTransaction.sign
    rw [hsigners]
    rw [h1sign]
    dsimp only [Except.bind]
    rw [hkeys1] at h2sign
    rw [h2sign]
  · intro s hs k m hsm
    rw [List.mem_map] at hs
    obtain ⟨k0, _, hk0⟩ := hs
    rw [← hk0] at hsm
    have := Option.some.inj hsm
    have hm := (Prod.mk.injEq _ _ _ _).mp this
    rw [← hm.2]

/-- Simple instruction with no accounts for the C9 witness. -/
def ixPlain : Instruction := ⟨1, [], []⟩

/-! ### C6 and C7: the execution pipelines -/

/-- Builder holding one committed single-instruction pack, no size bound. -/
def bOnePack : TransactionBuilder :=
  applyOps (TransactionBuilder.new 0 0) [.add ixSmall, .commit]

/-- Recognizer of simulation events. -/
def isSimEvent : ExecEvent → Bool
  | .simulated _ => true
  | _ => false

/-- Recognizer of submission events. -/
def isSubmitEvent : ExecEvent → Bool
  | .submitted _ => true
  | _ => false

/-- C6 counterexample. The claim as stated is false for
execute_transaction_builder: with the print flag set and simulate unset, the
pipeline prints the blocks and then still submits every combined envelope —
here a submission event occurs and the call reports success. -/
theorem c6_counterexample :
    executeTransactionBuilder bOnePack false true 0 1
        (fun _ => .ok ⟨none, none⟩) (fun _ _ => .ok 7)
      = .ok (some ([ExecEvent.printedBlock ixSmall, ExecEvent.submitted [ixSmall]], true)) ∧
    ExecEvent.submitted [ixSmall]
      ∈ [ExecEvent.printedBlock ixSmall, ExecEvent.submitted [ixSmall]] :=
  ⟨rfl, by decide⟩

lemma execLoopTU_print_only (sendOracle : Nat → Except ClientErrorKind Nat) :
    ∀ (builders : List (List Instruction)) (idx : Nat),
      execLoopTU sendOracle true builders idx
        = (builders.flatten.map ExecEvent.printedBlock, true) := by
  intro builders
  induction builders with
  | nil => intro idx; rfl
  | cons ins rest ih =>
    intro idx
    show (ins.map ExecEvent.printedBlock ++ (execLoopTU sendOracle true rest (idx + 1)).1,
      (execLoopTU sendOracle true rest (idx + 1)).2) = _
    rw [ih (idx + 1)]
    simp

lemma retryAuxW_attempts_mono (attempts : AttemptOracle) (retries : Nat) :
    ∀ (fuel rc i : Nat) (lastE : ClientErrorKind),
      i ≤ (retryAuxW attempts retries fuel rc i lastE).2 := by
  intro fuel
  induction fuel with
  | zero => intro rc i lastE; exact Nat.le_refl i
  | succ n ih =>
    intro rc i lastE
    rw [retryAuxW]
    by_cases hrc : rc ≤ retries
    · rw [if_pos hrc]
      cases attempts i with
      | ok s => exact Nat.le_succ i
      | error e =>
        dsimp only
        by_cases hr : isRetryableErr e = true
        · rw [if_pos hr]
          exact Nat.le_trans (Nat.le_succ i) (ih ((rc + 1) % 65536) (i + 1) e)
        · rw [if_neg hr]
          exact Nat.le_succ i
    · rw [if_neg hrc]

lemma retry_some_pos (attempts : AttemptOracle) (retries fuel : Nat)
    (res : Except ClientErrorKind Nat)
    (h : (retryBlockhashInternal attempts retries fuel).1 = some res) :
    1 ≤ (retryBlockhashInternal attempts retries fuel).2 := by
  unfold retryBlockhashInternal at h ⊢
  cases fuel with
  | zero => cases h
  | succ n =>
    rw [retryAuxW] at h ⊢
    rw [if_pos (Nat.zero_le retries)] at h ⊢
    cases ha : attempts 0 with
    | ok s => exact Nat.le_refl 1
    | error e =>
      dsimp only
      by_cases hr : isRetryableErr e = true
      · rw [if_pos hr]
        exact retryAuxW_attempts_mono attempts retries n ((0 + 1) % 65536) (0 + 1) e
      · rw [if_neg hr]

lemma execLoopM_submitted (sendOracle : Nat → AttemptOracle) (retries retryFuel : Nat) :
    ∀ (fuel j : Nat) (b : TransactionBuilder) (evs : List ExecEvent) (done : Bool),
      executeLoopMarinade sendOracle retries retryFuel fuel j b = .ok (some (evs, done)) →
      ∀ e ∈ evs, ∃ ins, e = ExecEvent.submitted ins := by
  intro fuel
  induction fuel with
  | zero =>
    intro j b evs done h e he
    rw [executeLoopMarinade] at h
    injection h with h1
    injection h1 with h2
    injection h2 with h3
    rw [← h3] at he
    cases he
  | succ n ih =>
    intro j b evs done h e he
    rw [executeLoopMarinade] at h
    cases hb : b.build_next_combined with
    | error k => rw [hb] at h; cases h
    | ok r =>
      obtain ⟨res, b'⟩ := r
      cases res with
      | none =>
        rw [hb] at h
        dsimp only at h
        injection h with h1
        injection h1 with h2
        injection h2 with h3
        rw [← h3] at he
        cases he
      | some pt =>
        rw [hb] at h
        dsimp only at h
        cases hretry : retryBlockhashInternal (sendOracle j) retries retryFuel with
        | mk ores natt =>
          rw [hretry] at h
          cases ores with
          | none => dsimp only at h; injection h with h1; cases h1
          | some res =>
            dsimp only at h
            cases res with
            | ok s =>
              cases hrec : executeLoopMarinade sendOracle retries retryFuel n (j + 1) b' with
              | error k => rw [hrec] at h; cases h
              | ok r2 =>
                cases r2 with
                | none =>
                  rw [hrec] at h
                  dsimp only at h
                  injection h with h1
                  cases h1
                | some p2 =>
                  obtain ⟨evs', done'⟩ := p2
                  rw [hrec] at h
                  dsimp only at h
                  injection h with h1
                  injection h1 with h2
                  injection h2 with h3 h4
                  rw [← h3] at he
                  cases List.mem_append.mp he with
                  | inl hl =>
                    obtain ⟨_, _, hback⟩ := List.mem_map.mp hl
                    exact ⟨pt.transaction.message.instructions, hback.symm⟩
                  | inr hr => exact ih (j + 1) b' evs' done' hrec e hr
            | error e' =>
              injection h with h1
              injection h1 with h2
              injection h2 with h3 h4
              rw [← h3] at he
              obtain ⟨_, _, hback⟩ := List.mem_map.mp he
              exact ⟨pt.transaction.message.instructions, hback.symm⟩

lemma execLoopM_nonempty (sendOracle : Nat → AttemptOracle) (retries retryFuel : Nat)
    (f j : Nat) (b : TransactionBuilder) (evs : List ExecEvent) (done : Bool)
    (hne : b.instructions ≠ [])
    (h : executeLoopMarinade sendOracle retries retryFuel (f + 1) j b
      = .ok (some (evs, done))) :
    evs ≠ [] := by
  rw [executeLoopMarinade] at h
  cases hb : b.build_next_combined with
  | error k => rw [hb] at h; cases h
  | ok r =>
    obtain ⟨res, b'⟩ := r
    cases res with
    | none =>
      obtain ⟨hc, he⟩ := build_next_combined_spec hb
      have hbe := he rfl
      unfold TransactionBuilder.isEmptyB at hbe
      simp only [Bool.and_eq_true, List.isEmpty_iff] at hbe
      have : b.instructions = [] := by
        rw [← hc]
        simp [optIns, TransactionBuilder.instructions, hbe.1, hbe.2]
      exact absurd this hne
    | some pt =>
      rw [hb] at h
      dsimp only at h
      cases hretry : retryBlockhashInternal (sendOracle j) retries retryFuel with
      | mk ores natt =>
        rw [hretry] at h
        cases ores with
        | none => dsimp only at h; injection h with h1; cases h1
        | some res =>
          have hpos : 1 ≤ natt := by
            have := retry_some_pos (sendOracle j) retries retryFuel res
              (by rw [hretry])
            rwa [hretry] at this
          have hrange : ((List.range natt).map
              (fun _ => ExecEvent.submitted pt.transaction.message.instructions)) ≠ [] := by
            intro hnil
            have := congrArg List.length hnil
            simp at this
            omega
          dsimp only at h
          cases res with
          | ok s =>
            cases hrec : executeLoopMarinade sendOracle retries retryFuel f (j + 1) b' with
            | error k => rw [hrec] at h; cases h
            | ok r2 =>
              cases r2 with
              | none =>
                rw [hrec] at h
                dsimp only at h
                injection h with h1
                cases h1
              | some p2 =>
                obtain ⟨evs', done'⟩ := p2
                rw [hrec] at h
                dsimp only at h
                injection h with h1
                injection h1 with h2
                injection h2 with h3 h4
                rw [← h3]
                intro happ
                exact hrange (List.append_eq_nil.mp happ).1
          | error e' =>
            injection h with h1
            injection h1 with h2
            injection h2 with h3 h4
            rw [← h3]
            exact hrange

/-- C6 amended theorem, first half about transaction-utils
execute_with_config (where the claim holds) and second half about
marinade-client execute_transaction_builder (where printing does not
suppress submission). -/
theorem c6_print_only_behaviour :
    (∀ (builders : List (List Instruction)) (simO : Nat → SimOutcome)
        (sendO : Nat → Except ClientErrorKind Nat),
      executeWithConfig builders false true simO sendO
        = (builders.flatten.map ExecEvent.printedBlock, true)) ∧
    (∀ (b : TransactionBuilder) (retries retryFuel : Nat)
        (simO : List Instruction → SimOutcome) (sendO : Nat → AttemptOracle)
        (evs : List ExecEvent) (done : Bool),
      executeTransactionBuilder b false true retries retryFuel simO sendO
          = .ok (some (evs, done)) →
      ∃ tail, evs = b.instructions.map ExecEvent.printedBlock ++ tail ∧
        (∀ e ∈ tail, ∃ ins, e = ExecEvent.submitted ins) ∧
        (b.instructions ≠ [] → tail ≠ [])) := by
  constructor
  · intro builders simO sendO
    unfold executeWithConfig
    simp only [Bool.false_eq_true, if_false]
    exact execLoopTU_print_only sendO builders 0
  · intro b retries retryFuel simO sendO evs done h
    unfold executeTransactionBuilder at h
    simp only [Bool.false_eq_true, if_false, if_true] at h
    cases hloop : executeLoopMarinade sendO retries retryFuel
        (b.instruction_packs.length + 2) 0 b with
    | error k => rw [hloop] at h; cases h
    | ok r =>
      cases r with
      | none =>
        rw [hloop] at h
        dsimp only at h
        injection h with h1
        cases h1
      | some p =>
        obtain ⟨evs0, done0⟩ := p
        rw [hloop] at h
        dsimp only at h
        injection h with h1
        injection h1 with h2
        injection h2 with h3 h4
        refine ⟨evs0, h3.symm, ?_, ?_⟩
        · exact execLoopM_submitted sendO retries retryFuel
            (b.instruction_packs.length + 2) 0 b evs0 done0 hloop
        · intro hne
          exact execLoopM_nonempty sendO retries retryFuel
            (b.instruction_packs.length + 1) 0 b evs0 done0 hne hloop

/-- Witness for C6 at a concrete input: the print-then-submit trace of the
one-pack builder. -/
theorem c6_witness :
    ∃ tail, [ExecEvent.printedBlock ixSmall, ExecEvent.submitted [ixSmall]]
        = bOnePack.instructions.map ExecEvent.printedBlock ++ tail ∧
      (∀ e ∈ tail, ∃ ins, e = ExecEvent.submitted ins) ∧
      (bOnePack.instructions ≠ [] → tail ≠ []) :=
  c6_print_only_behaviour.2 bOnePack 0 1
    (fun _ => .ok ⟨none, none⟩) (fun _ _ => .ok 7)
    [ExecEvent.printedBlock ixSmall, ExecEvent.submitted [ixSmall]] true (by rfl)

/-- C7 counterexample. The claim as stated is false: the two-pack builder
produces n = 2 combined envelopes, yet with a first simulation that reports
an on-chain error the pipeline aborts before counting the remainder and no
warning is emitted. -/
theorem c7_counterexample :
    executeTransactionBuilder bTwoPacks true false 0 1
        (fun _ => .ok ⟨some (.InstructionError 0), none⟩) (fun _ _ => .ok 7)
      = .ok (some ([ExecEvent.simulated [ixSmall]], false)) ∧
    (drainCombined bTwoPacks).toOption.map (fun r => r.1.length) = some 2 ∧
    ExecEvent.warned ∉ [ExecEvent.simulated [ixSmall]] :=
  ⟨rfl, rfl, by decide⟩

lemma countP_map_printed (p : ExecEvent → Bool)
    (hp : ∀ i, p (ExecEvent.printedBlock i) = false) (l : List Instruction) :
    ((l.map ExecEvent.printedBlock).countP p) = 0 := by
  induction l with
  | nil => rfl
  | cons i rest ih =>
    rw [List.map_cons, List.countP_cons, ih, hp i]
    rfl

lemma countP_printEvents (p : ExecEvent → Bool)
    (hp : ∀ i, p (ExecEvent.printedBlock i) = false) (pr : Bool) (l : List Instruction) :
    (((if pr then l.map ExecEvent.printedBlock else []) : List ExecEvent).countP p) = 0 := by
  cases pr
  · rfl
  · exact countP_map_printed p hp l

lemma warned_not_mem_printEvents (pr : Bool) (l : List Instruction) :
    ExecEvent.warned ∉ ((if pr then l.map ExecEvent.printedBlock else []) : List ExecEvent) := by
  cases pr
  · simp
  · simp

/-- C7 amended theorem: in simulate mode exactly one simulation call is made
and it targets the first combined envelope; nothing is submitted; when the
first simulation passes log_simulation the run succeeds and the warning is
emitted exactly when further envelopes exist; when it fails, the run aborts
and no warning is emitted even if further envelopes exist. -/
theorem c7_simulate_first_only (b : TransactionBuilder) (pr : Bool)
    (retries retryFuel : Nat)
    (simO : List Instruction → SimOutcome) (sendO : Nat → AttemptOracle)
    (pt0 : PreparedTransaction) (b1 : TransactionBuilder)
    (rest : List PreparedTransaction) (b2 : TransactionBuilder)
    (h1 : b.build_next_combined = .ok (some pt0, b1))
    (h2 : drainCombined b1 = .ok (rest, b2)) :
    ∃ evs ok0,
      executeTransactionBuilder b true pr retries retryFuel simO sendO
          = .ok (some (evs, ok0)) ∧
      (evs.countP isSimEvent) = 1 ∧
      ExecEvent.simulated pt0.transaction.message.instructions ∈ evs ∧
      (evs.countP isSubmitEvent) = 0 ∧
      (logSimulationOk (simO pt0.transaction.message.instructions) = true →
        ok0 = true ∧ (ExecEvent.warned ∈ evs ↔ rest ≠ [])) ∧
      (logSimulationOk (simO pt0.transaction.message.instructions) = false →
        ok0 = false ∧ ExecEvent.warned ∉ evs) := by
  have hsim0 : isSimEvent (ExecEvent.simulated pt0.transaction.message.instructions) = true := rfl
  unfold executeTransactionBuilder
  simp only [if_true]
  rw [h1]
  dsimp only
  by_cases hsim : logSimulationOk (simO pt0.transaction.message.instructions) = true
  · rw [if_pos hsim]
    rw [h2]
    dsimp only
    by_cases hrest : rest.isEmpty
    · rw [if_pos hrest]
      refine ⟨_, true, rfl, ?_, ?_, ?_, ?_, ?_⟩
      · rw [List.countP_append, countP_printEvents isSimEvent (fun _ => rfl) pr]
        rfl
      · simp
      · rw [List.countP_append, countP_printEvents isSubmitEvent (fun _ => rfl) pr]
        rfl
      · intro _
        refine ⟨rfl, ?_⟩
        constructor
        · intro hw
          cases List.mem_append.mp hw with
          | inl hl => exact absurd hl (warned_not_mem_printEvents pr b.instructions)
          | inr hr => simp at hr
        · intro hne
          exact absurd (List.isEmpty_iff.mp hrest) hne
      · intro hcontr
        rw [hsim] at hcontr
        cases hcontr
    · rw [if_neg hrest]
      refine ⟨_, true, rfl, ?_, ?_, ?_, ?_, ?_⟩
      · rw [List.countP_append, List.countP_append,
          countP_printEvents isSimEvent (fun _ => rfl) pr]
        rfl
      · simp
      · rw [List.countP_append, List.countP_append,
          countP_printEvents isSubmitEvent (fun _ => rfl) pr]
        rfl
      · intro _
        refine ⟨rfl, ?_⟩
        constructor
        · intro _
          intro hrnil
          rw [hrnil] at hrest
          exact hrest rfl
        · intro _
          simp
      · intro hcontr
        rw [hsim] at hcontr
        cases hcontr
  · rw [if_neg hsim]
    refine ⟨_, false, rfl, ?_, ?_, ?_, ?_, ?_⟩
    · rw [List.countP_append, countP_printEvents isSimEvent (fun _ => rfl) pr]
      rfl
    · simp
    · rw [List.countP_append, countP_printEvents isSubmitEvent (fun _ => rfl) pr]
      rfl
    · intro hcontr
      exact absurd hcontr hsim
    · intro _
      refine ⟨rfl, ?_⟩
      intro hw
      cases List.mem_append.mp hw with
      | inl hl => exact absurd hl (warned_not_mem_printEvents pr b.instructions)
      | inr hr => simp at hr

/-- Witness for C7 at a concrete input: the two-pack builder with a passing
simulation. -/
theorem c7_witness :
    ∃ evs ok0,
      executeTransactionBuilder bTwoPacks true false 0 1
          (fun _ => .ok ⟨none, none⟩) (fun _ _ => .ok 7)
          = .ok (some (evs, ok0)) ∧
      (evs.countP isSimEvent) = 1 ∧
      ExecEvent.simulated ptSmall.transaction.message.instructions ∈ evs ∧
      (evs.countP isSubmitEvent) = 0 ∧
      (logSimulationOk ((fun _ => .ok ⟨none, none⟩ : List Instruction → SimOutcome)
          ptSmall.transaction.message.instructions) = true →
        ok0 = true ∧ (ExecEvent.warned ∈ evs ↔ [ptSmall] ≠ [])) ∧
      (logSimulationOk ((fun _ => .ok ⟨none, none⟩ : List Instruction → SimOutcome)
          ptSmall.transaction.message.instructions) = false →
        ok0 = false ∧ ExecEvent.warned ∉ evs) :=
  c7_simulate_first_only bTwoPacks false 0 1
    (fun _ => .ok ⟨none, none⟩) (fun _ _ => .ok 7)
    ptSmall bTwoPacksAfterOne [ptSmall]
    { bTwoPacksAfterOne with instruction_packs := [] }
    (by rfl) (by rfl)

/-- Witness for C9 at a concrete input: a one-signer envelope signed with
token 5 and then token 9. -/
theorem c9_witness :
    ∃ pt2, (((⟨Transaction.newWithPayer [ixPlain] 0, [0]⟩ : PreparedTransaction).sign 5).bind
        fun p => p.sign 9) = .ok pt2 ∧
      pt2.transaction.signatures
        = (signedKeysOf (Transaction.newWithPayer [ixPlain] 0)).map
            (fun k => some (sigOf k
              { (Transaction.newWithPayer [ixPlain] 0).message with recent_blockhash := 9 })) ∧
      ∀ s ∈ pt2.transaction.signatures, ∀ k m, s = some (sigOf k m) →
        m.recent_blockhash = 9 :=
  c9_resign_replaces ⟨Transaction.newWithPayer [ixPlain] 0, [0]⟩ 5 9
    (by decide) (by decide) (by decide) (by decide) (by decide)

end Marinade
